import Mathlib

/-!
Formal model of the skateshop data pipeline: the deduplicator
(`scripts/processors/deduplicator.js`), the classifier
(`scripts/processors/classifier.js`) and the normalizer
(`scripts/processors/normalizer.js`), together with theorems checking the
specification's claims about them.

Strings are modelled as `List Char`; JavaScript numbers are modelled as
rationals (`ℚ`).  All definitions are written with structural (or fuel-based)
recursion so that concrete runs evaluate inside the kernel.
-/

/-- Strings of the modelled program. -/
abbrev Str := List Char

/-- The character list of a Lean string literal. -/
def tl (s : String) : Str := s.toList

/-! ### Character classes -/

/-- ASCII decimal digit (regex `[0-9]`, and the code points accepted in a URL
port). -/
def isDigitCh (c : Char) : Bool := decide (48 ≤ c.toNat) && decide (c.toNat ≤ 57)

/-- ASCII letter (`[A-Za-z]`). -/
def isLetterCh (c : Char) : Bool := c.isAlpha

/-- Word character of the JavaScript regex class `\w`, i.e. `[A-Za-z0-9_]`. -/
def isWordCh (c : Char) : Bool := c.isAlphanum || c == '_'

/-- Whitespace of the JavaScript regex class `\s` and of `String.prototype.trim`
(ASCII whitespace plus NO-BREAK SPACE and the BOM; the rarer Unicode space
code points are not modelled). -/
def isJsWs (c : Char) : Bool :=
  c.toNat == 32 || c.toNat == 9 || c.toNat == 10 || c.toNat == 13 ||
  c.toNat == 11 || c.toNat == 12 || c.toNat == 0xA0 || c.toNat == 0xFEFF

/-- Lower-case an ASCII letter (other characters are unchanged).  Models the
effect of `toLowerCase` / case-insensitive regex matching on the ASCII
fragment of Unicode, which is all the pipeline's fixed patterns use. -/
def asciiLower (c : Char) : Char :=
  if 65 ≤ c.toNat ∧ c.toNat ≤ 90 then Char.ofNat (c.toNat + 32) else c

/-- Lower-case a string (ASCII letters only). -/
def lowerStr (s : Str) : Str := s.map asciiLower

/-! ### Generic string helpers -/

/-- `startsList w s` is true when `w` is a prefix of `s`. -/
def startsList : Str → Str → Bool
  | [], _ => true
  | _, [] => false
  | c :: w, d :: s => c == d && startsList w s

/-- Substring containment, the model of `String.prototype.includes`. -/
def containsSub (w : Str) : Str → Bool
  | [] => startsList w []
  | c :: s => startsList w (c :: s) || containsSub w s

/-- Split a list at the first character satisfying `p`: returns the part
before it and the remainder beginning with that character (or `[]`). -/
def takeUntil (p : Char → Bool) : Str → Str × Str
  | [] => ([], [])
  | c :: s =>
    if p c then ([], c :: s)
    else
      let r := takeUntil p s
      (c :: r.1, r.2)

/-- Split at the last occurrence of the character `ch`:
`some (before, after)` if `ch` occurs, `none` otherwise. -/
def splitLastAt (ch : Char) (s : Str) : Option (Str × Str) :=
  let r := takeUntil (fun c => c == ch) s.reverse
  match r.2 with
  | [] => none
  | _ :: rest => some (rest.reverse, r.1.reverse)

/-- Model of `String.prototype.trim`. -/
def jsTrim (s : Str) : Str :=
  ((s.dropWhile isJsWs).reverse.dropWhile isJsWs).reverse

/-- Collapse every whitespace run to a single space: the global regex
replacement `replace(/\s+/g, ' ')`.  The flag records whether the previous
character was whitespace (in which case the current run was already
emitted). -/
def collapseWsAux : Bool → Str → Str
  | _, [] => []
  | prevWs, c :: s =>
    if isJsWs c then
      if prevWs then collapseWsAux true s else ' ' :: collapseWsAux true s
    else c :: collapseWsAux false s

/-- `replace(/\s+/g, ' ')`. -/
def collapseWs (s : Str) : Str := collapseWsAux false s

/-- Replace every (non-overlapping, leftmost) occurrence of `pat` by `rep`:
the global regex replacement for a fixed pattern string.  `fuel` bounds the
number of scanning steps; it is initialised with the length of the subject
string, which suffices because every step consumes at least one character. -/
def replaceAllAux (pat rep : Str) : Nat → Str → Str
  | 0, s => s
  | _ + 1, [] => []
  | fuel + 1, c :: s =>
    if !pat.isEmpty && startsList pat (c :: s) then
      rep ++ replaceAllAux pat rep fuel ((c :: s).drop pat.length)
    else c :: replaceAllAux pat rep fuel s

/-- Global fixed-string replacement. -/
def replaceAll (pat rep s : Str) : Str := replaceAllAux pat rep s.length s

/-- Keep the first occurrence of every element:
`array.filter((v, i, a) => a.indexOf(v) === i)`. -/
def firstDedup (l : List (Option Str)) : List (Option Str) :=
  l.foldl (fun acc v => if v ∈ acc then acc else acc ++ [v]) []

/-! ### The shop record

One record shape flows through the whole pipeline.  Every field is optional,
mirroring the duck-typed JavaScript objects; `none` stands for an absent (or
`null`/`undefined`) field. -/

structure Shop where
  id : Option Str := none
  name : Option Str := none
  address : Option Str := none
  lat : Option ℚ := none
  lng : Option ℚ := none
  website : Option Str := none
  phone : Option Str := none
  source : Option Str := none
  googlePlaceId : Option Str := none
  types : Option (List Str) := none
  osmId : Option Str := none
  osmType : Option Str := none
  mergedFrom : Option (List (Option Str)) := none
  isIndependent : Option Bool := none
  chainName : Option Str := none
deriving DecidableEq, Repr

/-- JavaScript truthiness of an optional string (`undefined`, `null` and `""`
are falsy). -/
def tstr : Option Str → Bool
  | none => false
  | some s => !s.isEmpty

/-- JavaScript truthiness of an optional number (`undefined`, `null` and `0`
are falsy).  A rational is zero exactly when its numerator is, which the
kernel can evaluate directly. -/
def tnum : Option ℚ → Bool
  | none => false
  | some q => q.num != 0

/-- JavaScript truthiness of an optional array (every array object is
truthy). -/
def tarr : Option (List Str) → Bool
  | none => false
  | some _ => true

/-- `a || b` on optional strings. -/
def jorS (a b : Option Str) : Option Str := if tstr a then a else b

/-- `a || b` on optional numbers. -/
def jorQ (a b : Option ℚ) : Option ℚ := if tnum a then a else b

/-- `a || b` on optional arrays. -/
def jorA (a b : Option (List Str)) : Option (List Str) := if tarr a then a else b

/-! ### Deduplicator (`scripts/processors/deduplicator.js`) -/

/-- Trailing `\b` after a word character: the next character must not be a
word character. -/
def boundaryAfter : Str → Bool
  | [] => true
  | c :: _ => !isWordCh c

/-- Match one regex alternative of the form `w₁\s*w₂\s*…\s*wₙ` followed by
`\b`, starting at the given position.  Returns the number of characters
consumed.  The greedy `\s*` needs no backtracking because the literal words
begin with non-whitespace characters. -/
def altWordsMatch : List Str → Str → Nat → Option Nat
  | [], rest, n => if boundaryAfter rest then some n else none
  | w :: ws, rest, n =>
    if startsList w rest then
      let rest1 := rest.drop w.length
      match ws with
      | [] => if boundaryAfter rest1 then some (n + w.length) else none
      | _ =>
        let sp := rest1.takeWhile isJsWs
        altWordsMatch ws (rest1.drop sp.length) (n + w.length + sp.length)
    else none

/-- `normalizeForComparison`'s suffix regex
`/\b(skate\s*shop|skateshop|skate\s*store|shop|store|inc|llc|ltd|co)\b/gi`:
try the alternatives in regex order at the current position; the first
alternative that matches (including its trailing `\b`) wins.  Every
alternative starts with a word character, so the leading `\b` holds exactly
when the preceding character is not a word character. -/
def suffixAltLen (prevIsWord : Bool) (s : Str) : Option Nat :=
  if prevIsWord then none
  else
    (altWordsMatch [tl "skate", tl "shop"] s 0).orElse fun _ =>
    (altWordsMatch [tl "skateshop"] s 0).orElse fun _ =>
    (altWordsMatch [tl "skate", tl "store"] s 0).orElse fun _ =>
    (altWordsMatch [tl "shop"] s 0).orElse fun _ =>
    (altWordsMatch [tl "store"] s 0).orElse fun _ =>
    (altWordsMatch [tl "inc"] s 0).orElse fun _ =>
    (altWordsMatch [tl "llc"] s 0).orElse fun _ =>
    (altWordsMatch [tl "ltd"] s 0).orElse fun _ =>
    altWordsMatch [tl "co"] s 0

/-- Remove every leftmost match of the suffix regex (global replacement by the
empty string).  `prevIsWord` is the wordness of the preceding character of the
original string; `fuel` bounds the scan (initialised with the string length,
enough because every step consumes at least one character). -/
def stripSuffixWords : Nat → Bool → Str → Str
  | 0, _, s => s
  | _ + 1, _, [] => []
  | fuel + 1, prevIsWord, c :: s =>
    match suffixAltLen prevIsWord (c :: s) with
    | some (n + 1) => stripSuffixWords fuel false ((c :: s).drop (n + 1))
    | _ => c :: stripSuffixWords fuel (isWordCh c) s

/-- `normalizeForComparison`: lower-case, normalize apostrophe variants, turn
punctuation into spaces, collapse whitespace, remove generic retail suffix
words, trim. -/
def normalizeForComparison (s : Option Str) : Str :=
  if !tstr s then []
  else
    let s0 := (s.getD []).map asciiLower
    let s1 := s0.map fun c =>
      if c.toNat == 0x2018 || c.toNat == 0x2019 || c == '`' then '\'' else c
    let s2 := s1.map fun c => if isWordCh c || isJsWs c || c == '\'' then c else ' '
    let s3 := collapseWs s2
    let s4 := stripSuffixWords s3.length false s3
    jsTrim s4

/-- One attempt of the `extractCity` regex `/,\s*([^,]+),\s*[A-Z]{2}\b/i`,
starting just after a comma.  Since `[^,]+` cannot cross a comma, the capture
runs from the first comma to the next one; the greedy `\s*` backtracks just
enough to leave the capture non-empty.  After the second comma: skip
whitespace, then exactly two ASCII letters followed by a word boundary. -/
def cityAt (s : Str) : Option Str :=
  let r := takeUntil (fun c => c == ',') s
  let seg := r.1
  match r.2 with
  | [] => none
  | _ :: afterComma =>
    if seg.isEmpty then none
    else
      let ws := seg.takeWhile isJsWs
      let capture := seg.drop (min ws.length (seg.length - 1))
      let t := afterComma.dropWhile isJsWs
      match t with
      | a :: b :: u =>
        if isLetterCh a && isLetterCh b && boundaryAfter u then some capture else none
      | _ => none

/-- Scan for the first comma that starts a city/state match (the regex only
ever matches starting at a comma). -/
def extractCityAux : Str → Option Str
  | [] => none
  | c :: s =>
    if c == ',' then (cityAt s).orElse fun _ => extractCityAux s
    else extractCityAux s

/-- `extractCity` (returns the comparison-normalized city, or `none`). -/
def extractCity (address : Option Str) : Option Str :=
  if !tstr address then none
  else (extractCityAux (address.getD [])).map (fun c => normalizeForComparison (some c))

/-- Decide `(x1 - x2)^2 + (y1 - y2)^2 < 0.0001^2` by cross-multiplying with
the (positive) denominators, so that the comparison is pure integer
arithmetic.  The source compares `sqrt(Δlat² + Δlng²) < 0.0001`; squaring
both sides of that inequality (both sides are non-negative) gives this form.
`distLtThreshold_iff` below proves the encoding equal to the rational
inequality. -/
def distLtThreshold (x1 y1 x2 y2 : ℚ) : Bool :=
  let dxn : ℤ := x1.num * (x2.den : ℤ) - x2.num * (x1.den : ℤ)
  let dxd : ℤ := (x1.den : ℤ) * (x2.den : ℤ)
  let dyn : ℤ := y1.num * (y2.den : ℤ) - y2.num * (y1.den : ℤ)
  let dyd : ℤ := (y1.den : ℤ) * (y2.den : ℤ)
  decide ((dxn ^ 2 * dyd ^ 2 + dyn ^ 2 * dxd ^ 2) * 100000000 < dxd ^ 2 * dyd ^ 2)

/-- `matchByCoordinates`: false unless all four coordinates are truthy
(so records with `0` or missing latitude/longitude never match by
coordinates); otherwise compare the Euclidean distance with the `0.0001`
threshold. -/
def matchByCoordinates (shop1 shop2 : Shop) : Bool :=
  if !tnum shop1.lat || !tnum shop1.lng || !tnum shop2.lat || !tnum shop2.lng then false
  else
    match shop1.lat, shop1.lng, shop2.lat, shop2.lng with
    | some x1, some y1, some x2, some y2 => distLtThreshold x1 y1 x2 y2
    | _, _, _, _ => false

/-- `matchByNameAndCity`. -/
def matchByNameAndCity (shop1 shop2 : Shop) : Bool :=
  let name1 := normalizeForComparison shop1.name
  let name2 := normalizeForComparison shop2.name
  if name1.isEmpty || name2.isEmpty then false
  else if name1 ≠ name2 then false
  else
    match extractCity shop1.address, extractCity shop2.address with
    | some c1, some c2 =>
      if !c1.isEmpty && !c2.isEmpty then c1 == c2 else true
    | _, _ => true

/-- `matchByAddress`. -/
def matchByAddress (shop1 shop2 : Shop) : Bool :=
  if !tstr shop1.address || !tstr shop2.address then false
  else
    let addr1 := normalizeForComparison shop1.address
    let addr2 := normalizeForComparison shop2.address
    if addr1 = addr2 then true
    else
      let street1 := jsTrim (takeUntil (fun c => c == ',') addr1).1
      let street2 := jsTrim (takeUntil (fun c => c == ',') addr2).1
      if !street1.isEmpty && !street2.isEmpty && street1 == street2 then
        match extractCity shop1.address, extractCity shop2.address with
        | some c1, some c2 => !c1.isEmpty && !c2.isEmpty && c1 == c2
        | _, _ => false
      else false

/-- `areDuplicates`: any of the three match rules. -/
def areDuplicates (shop1 shop2 : Shop) : Bool :=
  matchByCoordinates shop1 shop2 || matchByNameAndCity shop1 shop2 ||
    matchByAddress shop1 shop2

/-- Merge priority of a source tag: `{ chain: 3, manual: 2, osm: 1 }`,
anything else (including a missing source) `0`. -/
def sourcePriority (s : Option Str) : Nat :=
  match s with
  | none => 0
  | some l =>
    if l = tl "chain" then 3
    else if l = tl "manual" then 2
    else if l = tl "osm" then 1
    else 0

/-- `mergeShops existing incoming`: the record of strictly higher priority is
the base (on a tie the existing record stays the base); each field takes the
base's value when truthy, otherwise the other record's.  The merged object is
rebuilt from scratch, so fields not listed in the source (for example
`isIndependent` and `chainName`) are absent from the result. -/
def mergeShops (existing incoming : Shop) : Shop :=
  let existingPriority := sourcePriority existing.source
  let incomingPriority := sourcePriority incoming.source
  let base := if incomingPriority > existingPriority then incoming else existing
  let other := if incomingPriority > existingPriority then existing else incoming
  { id := base.id
    name := jorS base.name other.name
    address := jorS base.address other.address
    lat := jorQ base.lat other.lat
    lng := jorQ base.lng other.lng
    website := jorS base.website other.website
    phone := jorS base.phone other.phone
    source := base.source
    googlePlaceId := jorS base.googlePlaceId other.googlePlaceId
    types := jorA base.types other.types
    osmId := jorS base.osmId other.osmId
    osmType := jorS base.osmType other.osmType
    mergedFrom :=
      some (firstDedup ((base.mergedFrom.getD [base.source]) ++
        (other.mergedFrom.getD [other.source]))) }

/-- One step of `deduplicateShops`: find the first existing cluster that the
incoming shop duplicates and merge into it, otherwise append the shop as a
new cluster. -/
def insertShop : List Shop → Shop → List Shop
  | [], shop => [shop]
  | c :: rest, shop =>
    if areDuplicates c shop then mergeShops c shop :: rest
    else c :: insertShop rest shop

/-- `deduplicateShops`: single-pass incremental clustering. -/
def deduplicateShops (shops : List Shop) : List Shop :=
  shops.foldl insertShop []

/-! ### URL model

`normalizeWebsite` and the chain classifiers call the WHATWG `URL`
constructor.  The model below covers its behaviour on absolute `http:` /
`https:` URLs: stripping of tab/newline characters and of leading/trailing
C0-control-or-space characters, slurping of extra slashes after the scheme,
splitting of userinfo / host / port / path / query / fragment, ASCII
lower-casing and validation of the host, and port canonicalisation (digits
only, value below 2^16, default ports dropped).  Percent-encoding,
IDNA/punycode host encoding and dot-segment path normalisation are not
modelled: inputs that would need them are rejected (host validation) or kept
verbatim (paths). -/

/-- A slash as treated by the special-URL parser ( `/` or `\` ). -/
def isSlashCh (c : Char) : Bool := c.toNat == 47 || c.toNat == 92

/-- Characters ending the authority section. -/
def isAuthEnd (c : Char) : Bool :=
  c.toNat == 47 || c.toNat == 92 || c.toNat == 63 || c.toNat == 35

/-- ASCII tab or newline, removed anywhere in the input by the URL parser. -/
def isTabNl (c : Char) : Bool := c.toNat == 9 || c.toNat == 10 || c.toNat == 13

/-- C0 control or space, trimmed from both ends by the URL parser. -/
def isC0Space (c : Char) : Bool := c.toNat ≤ 32

/-- Input cleansing of the URL parser. -/
def cleanse (s : Str) : Str :=
  (((s.filter (fun c => !isTabNl c)).dropWhile isC0Space).reverse.dropWhile isC0Space).reverse

/-- A parsed URL (the components observable through the `URL` object). -/
structure URLRec where
  protocol : Str
  userinfo : Option Str := none
  hostname : Str
  port : Option Nat := none
  pathname : Str := ['/']
  search : Option Str := none
  frag : Option Str := none
deriving DecidableEq, Repr

/-- Characters that make a host invalid: forbidden host/domain code points
(controls and space, DEL, `%` `<` `>` `[` `]` `^` `|` `"` `/` `\\` `?` `#`
`@` `:`, given by code point), plus NO-BREAK SPACE and the BOM (non-ASCII
hosts and percent-escapes are not modelled and rejected). -/
def forbiddenHostCh (c : Char) : Bool :=
  isC0Space c || c.toNat == 0x7F || c.toNat == 0xA0 || c.toNat == 0xFEFF ||
  c.toNat == 37 || c.toNat == 60 || c.toNat == 62 || c.toNat == 91 ||
  c.toNat == 93 || c.toNat == 94 || c.toNat == 124 || c.toNat == 34 ||
  c.toNat == 47 || c.toNat == 92 || c.toNat == 63 || c.toNat == 35 ||
  c.toNat == 64 || c.toNat == 58

/-- Characters acceptable in the userinfo section (anything that did not end
the authority and is not a removed control character). -/
def uiCharOK (c : Char) : Bool := !(isAuthEnd c || isTabNl c)

/-- Serializer-side normalisation of userinfo: an empty password drops its
`:` separator (`user:@host` serialises as `user@host`). -/
def uiNormalize (u : Str) : Str :=
  let r := takeUntil (fun c => c == ':') u
  match r.2 with
  | [_] => r.1
  | _ => u

/-- Default port of a special scheme. -/
def defaultPort (proto : Str) : Nat := if proto = tl "https:" then 443 else 80

/-- Value of a decimal digit string. -/
def digitsToNat (l : Str) : Nat := l.foldl (fun a c => 10 * a + (c.toNat - 48)) 0

/-- Parse the port section (the text after `:`): empty means no port; digits
below 2^16 are accepted, with the scheme's default port normalised away;
anything else is a parse failure.  `none` = failure, `some p` = success with
optional port `p`. -/
def parsePort (proto p : Str) : Option (Option Nat) :=
  if p.isEmpty then some none
  else if p.all isDigitCh then
    let n := digitsToNat p
    if 65536 ≤ n then none
    else if n = defaultPort proto then some none
    else some (some n)
  else none

/-- Validate and normalise the userinfo section (`none` = parse failure,
`some ui` = accepted userinfo, empty credentials collapsing to `none`). -/
def parseUserinfo : Option Str → Option (Option Str)
  | none => some none
  | some u =>
    if u.all uiCharOK then
      let u2 := uiNormalize u
      some (if u2.isEmpty then none else some u2)
    else none

/-- Parse a `host[:port]` section together with an already-split userinfo.
The host must be non-empty and free of forbidden characters and is ASCII
lower-cased. -/
def parseAuthorityAt (proto : Str) (rawUi : Option Str) (hostport : Str) :
    Option (Option Str × Str × Option Nat) :=
  if hostport.isEmpty then none
  else
    let r := takeUntil (fun c => c == ':') hostport
    if r.1.isEmpty then none
    else if !r.1.all (fun c => !forbiddenHostCh c) then none
    else
      match parseUserinfo rawUi with
      | none => none
      | some ui =>
        let portRes : Option (Option Nat) :=
          match r.2 with
          | [] => some none
          | _ :: ptext => parsePort proto ptext
        match portRes with
        | none => none
        | some port => some (ui, lowerStr r.1, port)

/-- Parse the authority section into userinfo, host and port.  The userinfo
is the part before the last `@`. -/
def parseAuthority (proto auth : Str) : Option (Option Str × Str × Option Nat) :=
  match splitLastAt '@' auth with
  | some (u, hp) => parseAuthorityAt proto (some u) hp
  | none => parseAuthorityAt proto none auth

/-- Split the path-and-after section into pathname, query and fragment.  For
the special schemes an empty path serialises as `/` and backslashes are
treated as slashes. -/
def parsePath3 (rest : Str) : Str × Option Str × Option Str :=
  let r1 := takeUntil (fun c => c == '?' || c == '#') rest
  let pathname :=
    if r1.1.isEmpty then ['/']
    else r1.1.map (fun c => if c == '\\' then '/' else c)
  match r1.2 with
  | [] => (pathname, none, none)
  | d :: rest2 =>
    if d == '?' then
      let r2 := takeUntil (fun c => c == '#') rest2
      match r2.2 with
      | [] => (pathname, some r2.1, none)
      | _ :: fs => (pathname, some r2.1, some fs)
    else (pathname, none, some rest2)

/-- Serialized path + query + fragment. -/
def serTail (pathname : Str) (q f : Option Str) : Str :=
  pathname ++ (match q with | some q' => '?' :: q' | none => []) ++
    (match f with | some f' => '#' :: f' | none => [])

/-- Acceptable character of a path/query/fragment component (tabs and
newlines have been removed by cleansing; NO-BREAK SPACE and BOM would be
percent-encoded, which is not modelled, so they are rejected). -/
def tailCharOK (c : Char) : Bool :=
  !isTabNl c && c.toNat != 0xA0 && c.toNat != 0xFEFF

/-- The last character of the serialized tail must not be trimmable
whitespace (always true for a cleansed input, whose last character is
neither a control character nor a space). -/
def tailLastOK (t : Str) : Bool :=
  match t.getLast? with
  | some c => decide (32 < c.toNat)
  | none => true

/-- Match the scheme of an absolute `http(s)://` URL (case-insensitively),
returning the canonical protocol and the rest of the input. -/
def ciStarts : Str → Str → Option Str
  | [], s => some s
  | _, [] => none
  | c :: w, d :: s => if asciiLower d == c then ciStarts w s else none

/-- Scheme parsing (the callers guarantee a `^https?:\/\/` shape). -/
def parseScheme (s : Str) : Option (Str × Str) :=
  match ciStarts (tl "https://") s with
  | some rest => some (tl "https:", rest)
  | none =>
    match ciStarts (tl "http://") s with
    | some rest => some (tl "http:", rest)
    | none => none

/-- Main URL parser (after cleansing). -/
def parseMain (z : Str) : Option URLRec :=
  match parseScheme z with
  | none => none
  | some (proto, rest0) =>
    let rest1 := rest0.dropWhile isSlashCh
    let ra := takeUntil isAuthEnd rest1
    match parseAuthority proto ra.1 with
    | none => none
    | some (ui, host, port) =>
      match parsePath3 ra.2 with
      | (pathname, q, f) =>
        if pathname.all tailCharOK && (q.getD []).all tailCharOK &&
            (f.getD []).all tailCharOK && tailLastOK (serTail pathname q f) then
          some { protocol := proto, userinfo := ui, hostname := host, port := port,
                 pathname := pathname, search := q, frag := f }
        else none

/-- The `URL` constructor: cleanse, then parse.  `none` models a thrown
`TypeError`. -/
def parseURL (s : Str) : Option URLRec := parseMain (cleanse s)

/-- Decimal digits of `n` (most significant first); the fuel is enough for
any port number. -/
def natToCharsAux : Nat → Nat → Str
  | 0, _ => []
  | fuel + 1, n =>
    if n = 0 then [] else natToCharsAux fuel (n / 10) ++ [Char.ofNat (48 + n % 10)]

/-- Decimal representation of a natural number. -/
def natToChars (n : Nat) : Str := if n = 0 then ['0'] else natToCharsAux 6 n

/-- Serialized port (`:` + digits, or empty). -/
def serPort : Option Nat → Str
  | none => []
  | some n => ':' :: natToChars n

/-- Serialized userinfo (`user[:pass]@`, or empty). -/
def serUi : Option Str → Str
  | none => []
  | some u => u ++ ['@']

/-- The `href` serialisation of a parsed URL. -/
def serializeURL (r : URLRec) : Str :=
  r.protocol ++ tl "//" ++ serUi r.userinfo ++ r.hostname ++ serPort r.port ++
    serTail r.pathname r.search r.frag

/-! ### Normalizer: `normalizeWebsite` (`scripts/processors/normalizer.js`) -/

/-- `normalizeWebsite`: trim; reject very short strings and bare schemes;
prepend `https://` when the string has no scheme but looks like a host
(`www.` or contains a dot); parse; require a dotted hostname; drop a bare
`/` path from the serialisation (note that this branch also drops userinfo,
query and fragment); otherwise return the full `href`.  The source's
assignment `parsed.hostname = parsed.hostname.toLowerCase()` is a no-op in
the model because the parser already lower-cases the hostname. -/
def normalizeWebsite (url : Option Str) : Option Str :=
  if !tstr url then none
  else
    let normalized := jsTrim (url.getD [])
    if normalized.length < 4 then none
    else if normalized = tl "http://" ∨ normalized = tl "https://" then none
    else
      let withScheme : Option Str :=
        if (parseScheme normalized).isSome then some normalized
        else if startsList (tl "www.") normalized then some (tl "https://" ++ normalized)
        else if normalized.contains '.' then some (tl "https://" ++ normalized)
        else none
      match withScheme with
      | none => none
      | some s =>
        match parseURL s with
        | none => none
        | some parsed =>
          if parsed.hostname.isEmpty || !parsed.hostname.contains '.' then none
          else if parsed.pathname = ['/'] then
            some (parsed.protocol ++ tl "//" ++ parsed.hostname ++ serPort parsed.port)
          else some (serializeURL parsed)

/-! ### Classifier (`scripts/processors/classifier.js`) -/

/-- Store types that indicate a retail location. -/
def STORE_TYPES : List Str := [tl "store", tl "sporting_goods_store", tl "retail"]

/-- Patterns that suggest a skateboard-related shop
(`/skate/i, /sk8/i, /board/i, /deck/i, /shred/i, /thrash/i`): plain
substring tests on the lower-cased subject. -/
def SKATE_NAME_PATTERNS : List Str :=
  [tl "skate", tl "sk8", tl "board", tl "deck", tl "shred", tl "thrash"]

/-- Patterns that indicate non-skateboard businesses to skip (substring
match on the lower-cased name or hostname). -/
def SKIP_PATTERNS : List Str :=
  [tl "fingerboard", tl "finger board", tl "tech deck", tl "mini skate",
   tl "miniskate", tl "ice skate", tl "iceskate", tl "ice rink", tl "icerink",
   tl "skating rink", tl "skatingrink", tl "figure skating", tl "figureskating",
   tl "figure skater", tl "figureskater", tl "hockey", tl "pure hockey",
   tl "purehockey", tl "great skate", tl "greatskate", tl "skater's edge",
   tl "skaters edge", tl "skatersedge", tl "ice arena", tl "icearena",
   tl "ice center", tl "icecenter", tl "ice centre", tl "icecentre",
   tl "skate sharpening", tl "skatesharpening", tl "blade sharpening",
   tl "bladesharpening", tl "skate anytime", tl "skateanytime",
   tl "synthetic ice", tl "syntheticice", tl "artificial ice",
   tl "artificialice", tl "roller skate", tl "rollerskate", tl "roller rink",
   tl "rollerrink", tl "roller derby", tl "rollerderby", tl "roller disco",
   tl "rollerdisco", tl "sport authority", tl "sports authority",
   tl "sportsauthority", tl "dick's sporting", tl "dicks sporting",
   tl "dickssporting", tl "big 5 sporting", tl "big5sporting",
   tl "academy sports", tl "academysports", tl "front row sport",
   tl "frontrowsport"]

/-- Google Places types to exclude. -/
def EXCLUDED_TYPES : List Str :=
  [tl "ice_skating_rink", tl "skating_rink", tl "stadium", tl "arena",
   tl "department_store"]

/-- Websites that indicate chain stores. -/
def CHAIN_WEBSITES : List Str :=
  [tl "zumiez.com", tl "vans.com", tl "tactics.com", tl "ccs.com",
   tl "tillys.com", tl "pacsun.com", tl "activeridestore.com",
   tl "skatewarehouse.com"]

/-- Regex `\b` at a position: exactly one of the neighbouring characters is a
word character (at the end of the string: the previous one must be). -/
def boundaryAt (prevIsWord : Bool) : Str → Bool
  | [] => prevIsWord
  | c :: _ => prevIsWord != isWordCh c

/-- Scan every position of the string (left to right), passing the matcher
the wordness of the preceding character and the rest of the string. -/
def scanMatch (f : Bool → Str → Bool) : Bool → Str → Bool
  | prev, [] => f prev []
  | prev, c :: s => f prev (c :: s) || scanMatch f (isWordCh c) s

/-- `\s*(alt)?\b` after a literal word: either a boundary right here (the
optional group skipped), one of the alternatives followed by a boundary, or
more whitespace.  `prev` is the wordness of the previous character. -/
def optAltTail (alts : List Str) : Bool → Str → Bool
  | prev, [] => boundaryAt prev []
  | prev, c :: cs =>
    boundaryAt prev (c :: cs) ||
    alts.any (fun w => startsList w (c :: cs) && boundaryAfter ((c :: cs).drop w.length)) ||
    (isJsWs c && optAltTail alts false cs)

/-- Word-boundary search for any of the literal alternatives (each starts and
ends with a word character): regex `\b(a₁|a₂|…)\b` with the `i` flag, on a
lower-cased subject. -/
def testWordAlt (alts : List Str) (s : Str) : Bool :=
  scanMatch
    (fun prev rest =>
      !prev && alts.any (fun w => startsList w rest && boundaryAfter (rest.drop w.length)))
    false s

/-- Word-boundary search for a sequence of literal words joined by `\s*`
(regex `\bw₁\s*w₂\s*…\s*wₙ\b`). -/
def testWordSeq (words : List Str) (s : Str) : Bool :=
  scanMatch (fun prev rest => !prev && (altWordsMatch words rest 0).isSome) false s

/-- Test of `/\bvans\s*(store|outlet)?\b/i`. -/
def testVans (s : Str) : Bool :=
  scanMatch
    (fun prev rest =>
      !prev && startsList (tl "vans") rest &&
        optAltTail [tl "store", tl "outlet"] true (rest.drop 4))
    false s

/-- One entry of `CHAIN_PATTERNS`: the regex test (applied to the lower-cased
name) and the canonical display name. -/
structure ChainPattern where
  test : Str → Bool
  name : Str

/-- Known chain store patterns, in source order. -/
def CHAIN_PATTERNS : List ChainPattern :=
  [⟨testWordAlt [tl "zumiez"], tl "Zumiez"⟩,
   ⟨testVans, tl "Vans"⟩,
   ⟨testWordAlt [tl "tactics"], tl "Tactics"⟩,
   ⟨testWordAlt [tl "ccs"], tl "CCS"⟩,
   ⟨testWordAlt [tl "tillys", tl "tilly's"], tl "Tilly's"⟩,
   ⟨testWordAlt [tl "pacsun"], tl "PacSun"⟩,
   ⟨testWordSeq [tl "active", tl "ride", tl "shop"], tl "Active Ride Shop"⟩,
   ⟨testWordSeq [tl "empire", tl "skate"], tl "Empire"⟩,
   ⟨testWordAlt [tl "skatewarehouse"], tl "Skate Warehouse"⟩]

/-- Result of a chain match. -/
structure ChainMatch where
  chainName : Str
  matchedBy : Str
deriving DecidableEq, Repr

/-- `hostname.replace(/^www\./, '')`. -/
def stripWww (h : Str) : Str := if startsList (tl "www.") h then h.drop 4 else h

/-- `String.prototype.endsWith`. -/
def endsList (w s : Str) : Bool := startsList w.reverse s.reverse

/-- `chainDomain.split('.')[0]`. -/
def firstLabel (d : Str) : Str := (takeUntil (fun c => c == '.') d).1

/-- `matchChainByName`. -/
def matchChainByName (name : Option Str) : Option ChainMatch :=
  if !tstr name then none
  else
    CHAIN_PATTERNS.findSome? fun cp =>
      if cp.test (lowerStr (name.getD [])) then
        some { chainName := cp.name, matchedBy := tl "name" }
      else none

/-- `matchChainByWebsite`: parse the website URL (an invalid URL is caught
and gives no match), strip a leading `www.` from the hostname, and match the
chain domain list by equality or subdomain; the resulting chain name is the
part of the domain before its first dot. -/
def matchChainByWebsite (website : Option Str) : Option ChainMatch :=
  if !tstr website then none
  else
    match parseURL (website.getD []) with
    | none => none
    | some url =>
      let hostname := lowerStr (stripWww url.hostname)
      CHAIN_WEBSITES.findSome? fun chainDomain =>
        if hostname == chainDomain || endsList ('.' :: chainDomain) hostname then
          some { chainName := firstLabel chainDomain, matchedBy := tl "website" }
        else none

/-- `matchKnownChain` (the variant used by `calculateConfidence`): name
patterns first, then website domains. -/
def matchKnownChain (shop : Shop) : Option ChainMatch :=
  let byName :=
    if tstr shop.name then
      CHAIN_PATTERNS.findSome? fun cp =>
        if cp.test (lowerStr (shop.name.getD [])) then
          some { chainName := cp.name, matchedBy := tl "name" }
        else none
    else none
  match byName with
  | some m => some m
  | none =>
    if tstr shop.website then
      match parseURL (shop.website.getD []) with
      | none => none
      | some url =>
        let hostname := lowerStr (stripWww url.hostname)
        CHAIN_WEBSITES.findSome? fun chainDomain =>
          if hostname == chainDomain || endsList ('.' :: chainDomain) hostname then
            some { chainName := firstLabel chainDomain, matchedBy := tl "website" }
          else none
    else none

/-- A confidence result. -/
structure Confidence where
  level : Str
  reason : Str
deriving DecidableEq, Repr

/-- `calculateConfidence`: the ordered decision list of the classifier. -/
def calculateConfidence (shop : Shop) : Confidence :=
  let types := shop.types.getD []
  let name := lowerStr (shop.name.getD [])
  match matchKnownChain shop with
  | some chainMatch =>
    { level := tl "high", reason := tl "Known chain: " ++ chainMatch.chainName }
  | none =>
    if types.contains (tl "skateboard_shop") then
      { level := tl "high", reason := tl "Has skateboard_shop type" }
    else
      let hasStoreType := STORE_TYPES.any (fun t => types.contains t)
      if types.contains (tl "skateboard_park") && hasStoreType then
        { level := tl "very_high", reason := tl "Skate park with store" }
      else
        let hasSkateNamePattern := SKATE_NAME_PATTERNS.any (fun p => containsSub p name)
        if hasStoreType && hasSkateNamePattern then
          if SKIP_PATTERNS.any (fun p => containsSub p name) then
            { level := tl "exclude", reason := tl "Name matches skip pattern" }
          else
            { level := tl "good", reason := tl "Store with skate-related name" }
        else
          let websiteBranch : Option Confidence :=
            if hasStoreType && tstr shop.website then
              match parseURL (shop.website.getD []) with
              | some url =>
                let hostname := lowerStr (stripWww url.hostname)
                if SKATE_NAME_PATTERNS.any (fun p => containsSub p hostname) then
                  if SKIP_PATTERNS.any (fun p => containsSub p hostname) then
                    some { level := tl "exclude", reason := tl "Website matches skip pattern" }
                  else
                    some { level := tl "good", reason := tl "Store with skate-related website" }
                else none
              | none => none
            else none
          match websiteBranch with
          | some c => c
          | none =>
            if EXCLUDED_TYPES.any (fun t => types.contains t) then
              { level := tl "exclude", reason := tl "Has excluded type" }
            else if SKIP_PATTERNS.any (fun p => containsSub p name) then
              { level := tl "exclude", reason := tl "Name matches skip pattern" }
            else if hasStoreType then
              { level := tl "review", reason := tl "Store type but no clear skateboard indicator" }
            else
              { level := tl "exclude", reason := tl "No store type" }

/-- `classifyShop`: keep an existing classification; otherwise try the name
patterns, then the website domains; default to independent. -/
def classifyShop (shop : Shop) : Shop :=
  if shop.isIndependent == some false || tstr shop.chainName then
    { shop with
        isIndependent := some false
        chainName := jorS shop.chainName (some (tl "Unknown Chain")) }
  else
    match matchChainByName shop.name with
    | some nameMatch =>
      { shop with isIndependent := some false, chainName := some nameMatch.chainName }
    | none =>
      match matchChainByWebsite shop.website with
      | some websiteMatch =>
        { shop with isIndependent := some false, chainName := some websiteMatch.chainName }
      | none => { shop with isIndependent := some true }

/-! ### Normalizer: remaining fields and output preparation
(`scripts/processors/normalizer.js`) -/

/-- `normalizeName`: whitespace collapse and trim, HTML entity decode, quote
normalisation; missing or empty name becomes the sentinel. -/
def normalizeName (name : Option Str) : Str :=
  if !tstr name then tl "Unknown Skateshop"
  else
    let s0 := jsTrim (collapseWs (name.getD []))
    let s1 := replaceAll (tl "&amp;") (tl "&") s0
    let s2 := replaceAll (tl "&#39;") (tl "'") s1
    let s3 := replaceAll (tl "&quot;") (tl "\"") s2
    let s4 := s3.map fun c =>
      if c.toNat == 0x2018 || c.toNat == 0x2019 || c == '`' then '\'' else c
    s4.map fun c => if c.toNat == 0x201C || c.toNat == 0x201D then '"' else c

/-- `normalizePhone`: 10 digits (or 11 with a leading 1) are formatted as
`(AAA) BBB-CCCC`; anything else is returned trimmed. -/
def normalizePhone (phone : Option Str) : Option Str :=
  if !tstr phone then none
  else
    let p := phone.getD []
    let digits := p.filter isDigitCh
    if digits.length == 10 then
      some (('(' :: digits.take 3) ++ (')' :: ' ' :: ((digits.drop 3).take 3)) ++
        ('-' :: digits.drop 6))
    else if digits.length == 11 && digits.head? == some '1' then
      let d := digits.drop 1
      some (('(' :: d.take 3) ++ (')' :: ' ' :: ((d.drop 3).take 3)) ++ ('-' :: d.drop 6))
    else some (jsTrim p)

/-- One street-suffix fix of `normalizeAddress`: the global replacement of
`\bW\b(?!\.)` by `W.` for a literal word `W` of word characters.  After a
replacement the scan continues right after the matched word, whose last
character is a word character. -/
def replaceAbbrevAux (w : Str) : Nat → Bool → Str → Str
  | 0, _, s => s
  | _ + 1, _, [] => []
  | fuel + 1, prev, c :: s =>
    let rest := (c :: s).drop w.length
    if !prev && startsList w (c :: s) && boundaryAfter rest && !startsList ['.'] rest then
      w ++ '.' :: replaceAbbrevAux w fuel true rest
    else c :: replaceAbbrevAux w fuel (isWordCh c) s

/-- Global `\bW\b(?!\.)` → `W.` replacement. -/
def replaceAbbrev (w s : Str) : Str := replaceAbbrevAux w s.length false s

/-- Comma-spacing fix of `normalizeAddress`: the global replacement of
`/\s*,\s*/` by `", "` (a match starts at whitespace only when that
whitespace run leads to a comma). -/
def commaSpaceAux : Nat → Str → Str
  | 0, s => s
  | _ + 1, [] => []
  | fuel + 1, c :: s =>
    if c == ',' then ',' :: ' ' :: commaSpaceAux fuel (s.dropWhile isJsWs)
    else if isJsWs c then
      let run := (c :: s).takeWhile isJsWs
      match (c :: s).drop run.length with
      | ',' :: r => ',' :: ' ' :: commaSpaceAux fuel (r.dropWhile isJsWs)
      | _ => c :: commaSpaceAux fuel s
    else c :: commaSpaceAux fuel s

/-- `normalizeAddress`: whitespace collapse and trim, street-suffix
abbreviation fixes (case-sensitive, skipping ones already followed by a
period), comma spacing. -/
def normalizeAddress (address : Option Str) : Option Str :=
  if !tstr address then none
  else
    let s0 := jsTrim (collapseWs (address.getD []))
    let s1 := replaceAbbrev (tl "St") s0
    let s2 := replaceAbbrev (tl "Ave") s1
    let s3 := replaceAbbrev (tl "Blvd") s2
    let s4 := replaceAbbrev (tl "Rd") s3
    let s5 := replaceAbbrev (tl "Dr") s4
    let s6 := replaceAbbrev (tl "Ln") s5
    let s7 := replaceAbbrev (tl "Ct") s6
    let s8 := replaceAbbrev (tl "Pl") s7
    some (commaSpaceAux s8.length s8)

/-- `normalizeCoordinate`: `Math.round(coord * 1e6) / 1e6`, `null` for a
non-numeric input.  `Math.round x = ⌊x + 1/2⌋`, so the rounded numerator is
the floor division `(2·num·10⁶ + den) / (2·den)`. -/
def normalizeCoordinate (coord : Option ℚ) : Option ℚ :=
  match coord with
  | none => none
  | some q =>
    let rounded : ℤ := Int.fdiv (2 * q.num * 1000000 + (q.den : ℤ)) (2 * (q.den : ℤ))
    some (mkRat rounded 1000000)

/-- The record shape produced by `normalizeShop`: the normalized public
fields plus the underscore-renamed internal metadata (`_source`, `_osmId`,
`_mergedFrom`).  Note that `chainName` is not among the fields this function
copies, so it is absent from every normalized record. -/
structure NormalizedShop where
  id : Option Str := none
  name : Str := []
  address : Option Str := none
  lat : Option ℚ := none
  lng : Option ℚ := none
  website : Option Str := none
  phone : Option Str := none
  isIndependent : Option Bool := none
  uSource : Option Str := none
  uOsmId : Option Str := none
  uMergedFrom : Option (List (Option Str)) := none
deriving DecidableEq, Repr

/-- `normalizeShop`. -/
def normalizeShop (shop : Shop) : NormalizedShop :=
  { id := shop.id
    name := normalizeName shop.name
    address := normalizeAddress shop.address
    lat := normalizeCoordinate shop.lat
    lng := normalizeCoordinate shop.lng
    website := normalizeWebsite shop.website
    phone := normalizePhone shop.phone
    isIndependent := shop.isIndependent
    uSource := shop.source
    uOsmId := shop.osmId
    uMergedFrom := shop.mergedFrom }

/-- A JSON-ish JavaScript value, distinguishing `undefined` from `null`
(JSON serialisation drops keys bound to `undefined` but keeps `null`). -/
inductive JVal where
  | undef : JVal
  | jnull : JVal
  | jbool : Bool → JVal
  | jnum : ℚ → JVal
  | jstr : Str → JVal
deriving DecidableEq, Repr

/-- A nullable string field (the normalizer returns `null` for absent
values). -/
def jvalOfStrN : Option Str → JVal
  | none => JVal.jnull
  | some s => JVal.jstr s

/-- A nullable number field. -/
def jvalOfQN : Option ℚ → JVal
  | none => JVal.jnull
  | some q => JVal.jnum q

/-- A passed-through boolean field (absent means `undefined`). -/
def jvalOfBoolU : Option Bool → JVal
  | none => JVal.undef
  | some b => JVal.jbool b

/-- A passed-through string field (absent means `undefined`). -/
def jvalOfIdU : Option Str → JVal
  | none => JVal.undef
  | some s => JVal.jstr s

/-- `prepareForOutput` on one record: the output object literal, as an
ordered key/value list.  The keys `id`, `name`, `address`, `lat`, `lng` and
`isIndependent` are always present; `website` and `phone` only when truthy. -/
def prepareForOutputShop (shop : NormalizedShop) : List (String × JVal) :=
  [("id", jvalOfIdU shop.id),
   ("name", JVal.jstr shop.name),
   ("address", jvalOfStrN shop.address),
   ("lat", jvalOfQN shop.lat),
   ("lng", jvalOfQN shop.lng),
   ("isIndependent", jvalOfBoolU shop.isIndependent)] ++
  (if tstr shop.website then [("website", JVal.jstr (shop.website.getD []))] else []) ++
  (if tstr shop.phone then [("phone", JVal.jstr (shop.phone.getD []))] else [])

/-- `prepareForOutput` over a list of shops. -/
def prepareForOutput (shops : List NormalizedShop) : List (List (String × JVal)) :=
  shops.map prepareForOutputShop

/-- `JSON.stringify` on an object: keys bound to `undefined` are omitted
from the serialized record; `null` values are kept. -/
def serializeRecord (obj : List (String × JVal)) : List (String × JVal) :=
  obj.filter fun kv => !(kv.2 == JVal.undef)

/-! ### Derived definition: the source tag selected by iterated merging

Folding `mergeShops` over a list keeps, at each step, the source of the
strictly higher-priority record (the existing record on ties), i.e. a running
maximum that ties toward the earliest record. -/

/-- The source tag that survives merging the given shops (in order) into a
cluster that starts with source `init`. -/
def prioritySource (init : Option Str) (shops : List Shop) : Option Str :=
  shops.foldl
    (fun acc s => if sourcePriority s.source > sourcePriority acc then s.source else acc)
    init

/-! ### Concrete records used by the claim witnesses and counterexamples -/

/-- A shop whose latitude is the falsy number `0`. -/
def shopZeroLatA : Shop :=
  { name := some (tl "a")
    lat := some (mkRat 0 1)
    lng := some (mkRat 0 1)
    source := some (tl "osm") }

/-- A second shop at the same falsy coordinates. -/
def shopZeroLatB : Shop :=
  { name := some (tl "b")
    lat := some (mkRat 0 1)
    lng := some (mkRat 0 1)
    source := some (tl "osm") }

/-- An existing record with source `osm` (tie with the incoming one). -/
def tieExisting : Shop :=
  { id := some (tl "e")
    name := some (tl "Existing Name")
    source := some (tl "osm") }

/-- An incoming record with source `osm` (tie with the existing one). -/
def tieIncoming : Shop :=
  { id := some (tl "i")
    name := some (tl "Incoming Name")
    source := some (tl "osm") }

/-- First cluster seed of the duplicate-creating run: name `alpha` at
coordinates (1, 1). -/
def mutA : Shop :=
  { name := some (tl "alpha")
    lat := some (mkRat 1 1)
    lng := some (mkRat 1 1) }

/-- Second cluster seed: name `beta` at far-away coordinates (2, 2). -/
def mutB : Shop :=
  { name := some (tl "beta")
    lat := some (mkRat 2 1)
    lng := some (mkRat 2 1) }

/-- The record that merges into the first cluster by coordinates
(1.00005, 1) and, being higher priority, renames it to `beta`. -/
def mutC : Shop :=
  { name := some (tl "beta")
    lat := some (mkRat 100005 100000)
    lng := some (mkRat 1 1)
    source := some (tl "chain") }

/-- A shop that duplicates nothing (used in the pairwise witness). -/
def soloA : Shop :=
  { name := some (tl "alpha")
    address := some (tl "1 A St, Springfield, IL") }

/-- A second pairwise-distinct shop. -/
def soloB : Shop :=
  { name := some (tl "beta")
    address := some (tl "2 B St, Shelbyville, IL") }

/-- The osm half of the §8 merge scenario. -/
def coolOsm : Shop :=
  { name := some (tl "Cool Skate")
    address := some (tl "123 Main, Los Angeles, CA")
    source := some (tl "osm")
    phone := some (tl "555-1234") }

/-- The chain half of the §8 merge scenario. -/
def coolChain : Shop :=
  { name := some (tl "Cool Skate")
    address := some (tl "456 Oak, Los Angeles, CA")
    source := some (tl "chain")
    website := some (tl "https://example.com") }

/-- Three same-coordinate shops of different priorities. -/
def nearOsm : Shop :=
  { id := some (tl "osm-1")
    name := some (tl "Shop OSM")
    lat := some (mkRat 34 1)
    lng := some (mkRat (-118) 1)
    source := some (tl "osm") }

/-- Same coordinates, `google-places` source (priority 0). -/
def nearGoogle : Shop :=
  { id := some (tl "g-1")
    name := some (tl "Shop G")
    lat := some (mkRat 3400005 100000)
    lng := some (mkRat (-118) 1)
    source := some (tl "google-places") }

/-- Same coordinates, `manual` source (priority 2). -/
def nearManual : Shop :=
  { id := some (tl "m-1")
    name := some (tl "Shop M")
    lat := some (mkRat 34 1)
    lng := some (mkRat (-11800005) 100000)
    source := some (tl "manual") }

/-- The `calculateConfidence` probe record of §8. -/
def pureHockeyShop : Shop :=
  { name := some (tl "Pure Hockey")
    types := some [tl "store"] }

/-- A shop classified as a chain through its website domain only. -/
def tillysWebsiteShop : Shop :=
  { name := some (tl "Local Shop")
    website := some (tl "https://www.tillys.com") }

/-- A raw record that classification marks as a chain by name. -/
def zumiezShop : Shop :=
  { id := some (tl "1")
    name := some (tl "Zumiez")
    isIndependent := none }

/-- A record with no address (its normalized address is `null`). -/
def noAddressShop : Shop :=
  { id := some (tl "1")
    name := some (tl "Shop")
    isIndependent := some true }

/-! ### Well-formedness of parsed URLs

The components produced by a successful `parseMain` run satisfy these
predicates, and conversely every record satisfying them parses back from its
serialisation.  They drive the idempotence proof for `normalizeWebsite`. -/

/-- A hostname as stored by the parser: non-empty, free of forbidden host
characters, already ASCII lower-cased. -/
def hostOK (h : Str) : Prop :=
  h ≠ [] ∧ (∀ c ∈ h, forbiddenHostCh c = false) ∧ lowerStr h = h

/-- A userinfo component as stored by the parser: non-empty, made of
acceptable userinfo characters, and a fixpoint of the empty-password
normalisation. -/
def uiOK : Option Str → Prop
  | none => True
  | some u => u ≠ [] ∧ (∀ c ∈ u, uiCharOK c = true) ∧ uiNormalize u = u

/-- A port as stored by the parser: below 2^16 and not the scheme default. -/
def portOK (proto : Str) : Option Nat → Prop
  | none => True
  | some n => n < 65536 ∧ n ≠ defaultPort proto

/-- A pathname as stored by the parser: starts with `/`, free of `?`, `#`
and `\\` (mapped to `/`), and of characters the serializer cannot round-trip. -/
def pathOK (p : Str) : Prop :=
  (∃ t, p = '/' :: t) ∧
  (∀ c ∈ p, ((c == '?') || (c == '#')) = false) ∧
  (∀ c ∈ p, (c == '\\') = false) ∧
  (∀ c ∈ p, tailCharOK c = true)

/-- A query component as stored by the parser: free of `#` and of
characters the serializer cannot round-trip. -/
def searchOK : Option Str → Prop
  | none => True
  | some q => (∀ c ∈ q, (c == '#') = false) ∧ (∀ c ∈ q, tailCharOK c = true)

/-- A fragment component as stored by the parser. -/
def fragOK : Option Str → Prop
  | none => True
  | some f => ∀ c ∈ f, tailCharOK c = true

/-- Well-formedness of a parsed URL record: exactly the invariants
established by `parseMain` and consumed by the round-trip proof. -/
def URLWF (r : URLRec) : Prop :=
  (r.protocol = tl "http:" ∨ r.protocol = tl "https:") ∧
  uiOK r.userinfo ∧ hostOK r.hostname ∧ portOK r.protocol r.port ∧
  pathOK r.pathname ∧ searchOK r.search ∧ fragOK r.frag ∧
  tailLastOK (serTail r.pathname r.search r.frag) = true

/-! ### Supporting lemmas: symmetry of the duplicate predicate -/

/-- The threshold comparison is symmetric in the two coordinate pairs. -/
theorem distLtThreshold_symm (x1 y1 x2 y2 : ℚ) :
    distLtThreshold x1 y1 x2 y2 = distLtThreshold x2 y2 x1 y1 := by
  unfold distLtThreshold
  rw [decide_eq_decide]
  constructor <;> intro h <;> nlinarith [h]

/-- `matchByCoordinates` is symmetric. -/
theorem matchByCoordinates_symm (a b : Shop) :
    matchByCoordinates a b = matchByCoordinates b a := by
  unfold matchByCoordinates
  rcases a.lat with _ | x1 <;> rcases a.lng with _ | y1 <;>
    rcases b.lat with _ | x2 <;> rcases b.lng with _ | y2 <;>
      simp [tnum]
  by_cases h1 : x1 = 0 <;> by_cases h2 : y1 = 0 <;>
    by_cases h3 : x2 = 0 <;> by_cases h4 : y2 = 0 <;>
      simp [h1, h2, h3, h4, distLtThreshold_symm x1 y1 x2 y2]

/-- `matchByNameAndCity` is symmetric. -/
theorem matchByNameAndCity_symm (a b : Shop) :
    matchByNameAndCity a b = matchByNameAndCity b a := by
  unfold matchByNameAndCity
  by_cases h1 : (normalizeForComparison a.name).isEmpty <;>
    by_cases h2 : (normalizeForComparison b.name).isEmpty <;>
      simp [h1, h2]
  by_cases heq : normalizeForComparison a.name = normalizeForComparison b.name
  · rw [heq]
    rcases extractCity a.address with _ | c1 <;> rcases extractCity b.address with _ | c2 <;>
      simp
    by_cases e1 : c1.isEmpty <;> by_cases e2 : c2.isEmpty <;>
      simp [e1, e2, BEq.comm]
    all_goals cases hd1 : decide (c1 = []) <;> cases hd2 : decide (c2 = []) <;> simp
  · simp [heq, Ne.symm heq]

/-- `matchByAddress` is symmetric. -/
theorem matchByAddress_symm (a b : Shop) :
    matchByAddress a b = matchByAddress b a := by
  unfold matchByAddress
  by_cases h1 : tstr a.address <;> by_cases h2 : tstr b.address <;>
    simp [h1, h2]
  by_cases heq : normalizeForComparison a.address = normalizeForComparison b.address
  · simp [heq]
  · simp [heq, Ne.symm heq]
    by_cases hs : jsTrim (takeUntil (fun c => c == ',') (normalizeForComparison a.address)).1 =
        jsTrim (takeUntil (fun c => c == ',') (normalizeForComparison b.address)).1
    · rw [hs]
      rcases extractCity a.address with _ | c1 <;> rcases extractCity b.address with _ | c2 <;>
        simp [BEq.comm]
      cases hc1 : c1.isEmpty <;> cases hc2 : c2.isEmpty <;> simp
    · simp [hs, Ne.symm hs]

/-- `areDuplicates` is symmetric. -/
theorem areDuplicates_symm (a b : Shop) : areDuplicates a b = areDuplicates b a := by
  unfold areDuplicates
  rw [matchByCoordinates_symm, matchByNameAndCity_symm, matchByAddress_symm]

/-! ### Claim C10 -/

/-- Claim C10: whenever either record of a pair has a falsy latitude or
longitude (missing, `null`, or the number `0`), the coordinate rule returns
false — the guard tests truthiness, not non-nullness — so the pair can only
match through the name+city or address rules. -/
theorem matchByCoordinates_falsy_requires_other_rules (shop1 shop2 : Shop)
    (h : tnum shop1.lat = false ∨ tnum shop1.lng = false ∨
      tnum shop2.lat = false ∨ tnum shop2.lng = false) :
    matchByCoordinates shop1 shop2 = false ∧
    areDuplicates shop1 shop2 =
      (matchByNameAndCity shop1 shop2 || matchByAddress shop1 shop2) := by
  have hc : matchByCoordinates shop1 shop2 = false := by
    rcases h with h | h | h | h <;> simp [matchByCoordinates, h]
  exact ⟨hc, by simp [areDuplicates, hc]⟩

/-- Witness for C10 at two records whose coordinates are the falsy number
zero. -/
theorem matchByCoordinates_falsy_requires_other_rules_witness :
    (tnum shopZeroLatA.lat = false ∨ tnum shopZeroLatA.lng = false ∨
      tnum shopZeroLatB.lat = false ∨ tnum shopZeroLatB.lng = false) ∧
    (matchByCoordinates shopZeroLatA shopZeroLatB = false ∧
      areDuplicates shopZeroLatA shopZeroLatB =
        (matchByNameAndCity shopZeroLatA shopZeroLatB ||
          matchByAddress shopZeroLatA shopZeroLatB)) :=
  ⟨Or.inl (by decide),
    matchByCoordinates_falsy_requires_other_rules shopZeroLatA shopZeroLatB
      (Or.inl (by decide))⟩

/-! ### Claim C2 -/

/-- Claim C2 counterexample: with two records of equal source priority (both
`osm`), `mergeShops` keeps the EXISTING record as the base — its `id` and
truthy fields win — contradicting the claim that the incoming record is the
base on ties. -/
theorem mergeShops_tie_incoming_base_false :
    sourcePriority tieIncoming.source = sourcePriority tieExisting.source ∧
    (mergeShops tieExisting tieIncoming).id = tieExisting.id ∧
    (mergeShops tieExisting tieIncoming).name = tieExisting.name ∧
    (mergeShops tieExisting tieIncoming).id ≠ tieIncoming.id ∧
    (mergeShops tieExisting tieIncoming).name ≠ tieIncoming.name := by decide

/-- Claim C2 (amended): on equal source priority the EXISTING record is the
base: the merged record takes the existing record's `id` and `source`, and
every listed field prefers the existing record's truthy value, falling back
to the incoming record's. -/
theorem mergeShops_tie_existing_base (existing incoming : Shop)
    (h : sourcePriority incoming.source = sourcePriority existing.source) :
    (mergeShops existing incoming).id = existing.id ∧
    (mergeShops existing incoming).source = existing.source ∧
    (mergeShops existing incoming).name =
      (if tstr existing.name then existing.name else incoming.name) ∧
    (mergeShops existing incoming).address =
      (if tstr existing.address then existing.address else incoming.address) ∧
    (mergeShops existing incoming).lat =
      (if tnum existing.lat then existing.lat else incoming.lat) ∧
    (mergeShops existing incoming).lng =
      (if tnum existing.lng then existing.lng else incoming.lng) ∧
    (mergeShops existing incoming).website =
      (if tstr existing.website then existing.website else incoming.website) ∧
    (mergeShops existing incoming).phone =
      (if tstr existing.phone then existing.phone else incoming.phone) := by
  refine ⟨?_, ?_, ?_, ?_, ?_, ?_, ?_, ?_⟩ <;> simp [mergeShops, h, jorS, jorQ]

/-- Witness for the amended C2 at the two concrete `osm` records. -/
theorem mergeShops_tie_existing_base_witness :
    sourcePriority tieIncoming.source = sourcePriority tieExisting.source ∧
    ((mergeShops tieExisting tieIncoming).id = tieExisting.id ∧
      (mergeShops tieExisting tieIncoming).source = tieExisting.source ∧
      (mergeShops tieExisting tieIncoming).name =
        (if tstr tieExisting.name then tieExisting.name else tieIncoming.name) ∧
      (mergeShops tieExisting tieIncoming).address =
        (if tstr tieExisting.address then tieExisting.address else tieIncoming.address) ∧
      (mergeShops tieExisting tieIncoming).lat =
        (if tnum tieExisting.lat then tieExisting.lat else tieIncoming.lat) ∧
      (mergeShops tieExisting tieIncoming).lng =
        (if tnum tieExisting.lng then tieExisting.lng else tieIncoming.lng) ∧
      (mergeShops tieExisting tieIncoming).website =
        (if tstr tieExisting.website then tieExisting.website else tieIncoming.website) ∧
      (mergeShops tieExisting tieIncoming).phone =
        (if tstr tieExisting.phone then tieExisting.phone else tieIncoming.phone)) :=
  ⟨by decide, mergeShops_tie_existing_base tieExisting tieIncoming (by decide)⟩

/-! ### Claim C7 -/

/-- Claim C7: on `{name: "Pure Hockey", types: ["store"]}` the record has a
generic store type, its name matches none of the skate-name patterns (so the
store+skate-name rule cannot fire), and `calculateConfidence` returns
`exclude` with reason `Name matches skip pattern` via the direct skip-list
rule. -/
theorem calculateConfidence_pure_hockey_exclude :
    calculateConfidence pureHockeyShop =
      { level := tl "exclude", reason := tl "Name matches skip pattern" } ∧
    STORE_TYPES.any (fun t => (pureHockeyShop.types.getD []).contains t) = true ∧
    SKATE_NAME_PATTERNS.any
      (fun p => containsSub p (lowerStr (pureHockeyShop.name.getD []))) = false := by decide

/-! ### Claim C3 counterexample -/

/-- Claim C3 counterexample: running the deduplicator on `[mutA, mutB, mutC]`
merges `mutC` into the first cluster (by coordinates), which renames that
cluster to `beta`; the final output consists of two distinct records that
ARE mutual duplicates under the matching rules (equal normalized names, no
extractable cities). -/
theorem deduplicateShops_mutual_duplicates_output :
    deduplicateShops [mutA, mutB, mutC] = [mergeShops mutA mutC, mutB] ∧
    mergeShops mutA mutC ≠ mutB ∧
    areDuplicates (mergeShops mutA mutC) mutB = true := by decide

/-! ### Claim C5 counterexample -/

/-- Claim C5 counterexample: two records with EQUAL, non-null coordinates
(both exactly `0`) are not merged at all, because the coordinate guard tests
truthiness; the deduplicator returns two records, not one. -/
theorem deduplicateShops_zero_coords_not_merged :
    shopZeroLatA.lat = shopZeroLatB.lat ∧ shopZeroLatA.lng = shopZeroLatB.lng ∧
    shopZeroLatA.lat ≠ none ∧ shopZeroLatA.lng ≠ none ∧
    (deduplicateShops [shopZeroLatA, shopZeroLatB]).length = 2 := by decide

/-! ### Claim C6 -/

/-- Claim C6: for duplicate-matching records A (source `osm`) and B (source
`chain`), both input orders produce the single record `mergeShops A B`, in
which B is the base: B's `id` and `source` survive and every listed field
prefers B's truthy value over A's. -/
theorem dedup_osm_chain_order_independent (A B : Shop)
    (hA : A.source = some (tl "osm")) (hB : B.source = some (tl "chain"))
    (hdup : areDuplicates A B = true) :
    deduplicateShops [A, B] = [mergeShops A B] ∧
    deduplicateShops [B, A] = [mergeShops A B] ∧
    (mergeShops A B).id = B.id ∧
    (mergeShops A B).source = B.source ∧
    (mergeShops A B).name = (if tstr B.name then B.name else A.name) ∧
    (mergeShops A B).address = (if tstr B.address then B.address else A.address) ∧
    (mergeShops A B).lat = (if tnum B.lat then B.lat else A.lat) ∧
    (mergeShops A B).lng = (if tnum B.lng then B.lng else A.lng) ∧
    (mergeShops A B).website = (if tstr B.website then B.website else A.website) ∧
    (mergeShops A B).phone = (if tstr B.phone then B.phone else A.phone) := by
  have h1 : sourcePriority A.source = 1 := by rw [hA]; decide
  have h2 : sourcePriority B.source = 3 := by rw [hB]; decide
  have hdup' : areDuplicates B A = true := by rw [areDuplicates_symm]; exact hdup
  have hmerge : mergeShops B A = mergeShops A B := by simp [mergeShops, h1, h2]
  refine ⟨by simp [deduplicateShops, insertShop, hdup],
    by simp [deduplicateShops, insertShop, hdup', hmerge], ?_, ?_, ?_, ?_, ?_, ?_, ?_, ?_⟩ <;>
      simp [mergeShops, h1, h2, jorS, jorQ]

/-- Witness for C6 at the §8 scenario records (same normalized name and
city, different streets). -/
theorem dedup_osm_chain_order_independent_witness :
    (coolOsm.source = some (tl "osm") ∧ coolChain.source = some (tl "chain") ∧
      areDuplicates coolOsm coolChain = true) ∧
    (deduplicateShops [coolOsm, coolChain] = [mergeShops coolOsm coolChain] ∧
      deduplicateShops [coolChain, coolOsm] = [mergeShops coolOsm coolChain] ∧
      (mergeShops coolOsm coolChain).id = coolChain.id ∧
      (mergeShops coolOsm coolChain).source = coolChain.source ∧
      (mergeShops coolOsm coolChain).name =
        (if tstr coolChain.name then coolChain.name else coolOsm.name) ∧
      (mergeShops coolOsm coolChain).address =
        (if tstr coolChain.address then coolChain.address else coolOsm.address) ∧
      (mergeShops coolOsm coolChain).lat =
        (if tnum coolChain.lat then coolChain.lat else coolOsm.lat) ∧
      (mergeShops coolOsm coolChain).lng =
        (if tnum coolChain.lng then coolChain.lng else coolOsm.lng) ∧
      (mergeShops coolOsm coolChain).website =
        (if tstr coolChain.website then coolChain.website else coolOsm.website) ∧
      (mergeShops coolOsm coolChain).phone =
        (if tstr coolChain.phone then coolChain.phone else coolOsm.phone)) :=
  ⟨⟨by decide, by decide, by decide⟩,
    dedup_osm_chain_order_independent coolOsm coolChain (by decide) (by decide) (by decide)⟩

/-! ### Claim C1 -/

/-- Claim C1 counterexample: a record that classification marks as a chain
(`isIndependent = false`, `chainName = "Zumiez"`) loses its `chainName` in
`normalizeShop`/`prepareForOutput`; the emitted record carries
`isIndependent: false` but no `chainName` key at all, refuting the claimed
`chainName ⟺ isIndependent === false` output invariant. -/
theorem output_chainName_iff_isIndependent_false :
    (classifyShop zumiezShop).isIndependent = some false ∧
    (classifyShop zumiezShop).chainName = some (tl "Zumiez") ∧
    ("isIndependent", JVal.jbool false) ∈
      prepareForOutputShop (normalizeShop (classifyShop zumiezShop)) ∧
    (prepareForOutputShop (normalizeShop (classifyShop zumiezShop))).map Prod.fst =
      ["id", "name", "address", "lat", "lng", "isIndependent"] := by decide

/-- Claim C1 (amended): no record of the final emitted output carries a
`chainName` key at all — `normalizeShop` and `prepareForOutput` rebuild the
record from a fixed key list that does not include it — so `chainName`
present implies `isIndependent === false` only vacuously, and records with
`isIndependent === false` do NOT carry the chain's name. -/
theorem output_never_contains_chainName (shop : Shop) :
    "chainName" ∉ (prepareForOutputShop (normalizeShop (classifyShop shop))).map Prod.fst := by
  unfold prepareForOutputShop
  split_ifs <;> simp

/-! ### Claim C8 -/

/-- Extraction principle for `List.findSome?` (first-match searches). -/
theorem findSome?_mem_of_eq_some {α β : Type} (f : α → Option β) :
    ∀ (l : List α) (b : β), l.findSome? f = some b → ∃ a ∈ l, f a = some b := by
  intro l
  induction l with
  | nil => intro b h; simp [List.findSome?] at h
  | cons x xs ih =>
    intro b h
    rcases hfx : f x with _ | b'
    · rw [List.findSome?, hfx] at h
      obtain ⟨a, ha, hfa⟩ := ih b h
      exact ⟨a, List.mem_cons_of_mem x ha, hfa⟩
    · rw [List.findSome?, hfx] at h
      cases h
      exact ⟨x, List.mem_cons_self x xs, hfx⟩

/-- Claim C8 counterexample: a shop whose website hostname matches the
listed chain domain `tillys.com` is classified as a chain, but its
`chainName` is the lowercase domain label `"tillys"`, not the canonical
display name `"Tilly's"` claimed by the spec. -/
theorem classifyShop_website_chainName_not_display :
    (classifyShop tillysWebsiteShop).isIndependent = some false ∧
    (classifyShop tillysWebsiteShop).chainName = some (tl "tillys") ∧
    (classifyShop tillysWebsiteShop).chainName ≠ some (tl "Tilly's") := by decide

/-- Claim C8 (amended): for a record with no prior chain flag or chain name
and no chain-name-pattern match, a website chain-domain match makes
`classifyShop` return `isIndependent = false` with `chainName` equal to the
part of the matched chain domain before its first dot (e.g. `"tillys"` for
`tillys.com`), not the chain's display name. -/
theorem classifyShop_website_chain_domain_label (shop : Shop) (m : ChainMatch)
    (h1 : shop.isIndependent ≠ some false) (h2 : tstr shop.chainName = false)
    (h3 : matchChainByName shop.name = none)
    (h4 : matchChainByWebsite shop.website = some m) :
    classifyShop shop =
      { shop with isIndependent := some false, chainName := some m.chainName } ∧
    ∃ url, parseURL (shop.website.getD []) = some url ∧
      ∃ d ∈ CHAIN_WEBSITES,
        (lowerStr (stripWww url.hostname) == d ||
          endsList ('.' :: d) (lowerStr (stripWww url.hostname))) = true ∧
        m.chainName = firstLabel d := by
  constructor
  · unfold classifyShop
    have hg : (shop.isIndependent == some false || tstr shop.chainName) = false := by
      simp [h2, beq_iff_eq, h1]
    rw [hg]
    simp [h3, h4]
  · unfold matchChainByWebsite at h4
    by_cases hw : tstr shop.website
    · simp only [hw, Bool.not_true, Bool.false_eq_true, if_false] at h4
      rcases hp : parseURL (shop.website.getD []) with _ | url
      · rw [hp] at h4; simp at h4
      · rw [hp] at h4
        obtain ⟨d, hd, hfd⟩ := findSome?_mem_of_eq_some _ _ _ h4
        refine ⟨url, rfl, d, hd, ?_⟩
        by_cases hm : (lowerStr (stripWww url.hostname) == d ||
            endsList ('.' :: d) (lowerStr (stripWww url.hostname))) = true
        · rw [if_pos hm] at hfd
          cases hfd
          exact ⟨hm, rfl⟩
        · rw [if_neg hm] at hfd
          cases hfd
    · simp [hw] at h4

/-- Witness for the amended C8 at the `tillys.com` record. -/
theorem classifyShop_website_chain_domain_label_witness :
    (tillysWebsiteShop.isIndependent ≠ some false ∧
      tstr tillysWebsiteShop.chainName = false ∧
      matchChainByName tillysWebsiteShop.name = none ∧
      matchChainByWebsite tillysWebsiteShop.website =
        some { chainName := tl "tillys", matchedBy := tl "website" }) ∧
    (classifyShop tillysWebsiteShop =
      { tillysWebsiteShop with
          isIndependent := some false
          chainName := some (tl "tillys") } ∧
    ∃ url, parseURL (tillysWebsiteShop.website.getD []) = some url ∧
      ∃ d ∈ CHAIN_WEBSITES,
        (lowerStr (stripWww url.hostname) == d ||
          endsList ('.' :: d) (lowerStr (stripWww url.hostname))) = true ∧
        (tl "tillys" : Str) = firstLabel d) :=
  ⟨⟨by decide, by decide, by decide, by decide⟩,
    classifyShop_website_chain_domain_label tillysWebsiteShop
      { chainName := tl "tillys", matchedBy := tl "website" }
      (by decide) (by decide) (by decide) (by decide)⟩

/-! ### Claim C9 -/

/-- Claim C9 counterexample: a record with no address still gets an
`address` key in the serialized output, bound to the literal `null` —
`prepareForOutput` always copies `address` (and `lat`/`lng`), only `website`
and `phone` are conditional. -/
theorem prepareForOutput_address_null_key :
    (normalizeShop noAddressShop).address = none ∧
    ("address", JVal.jnull) ∈
      serializeRecord (prepareForOutputShop (normalizeShop noAddressShop)) := by decide

/-- Claim C9 (amended): the output stage rebuilds each record with only the
keys `id`, `name`, `address`, `lat`, `lng`, `isIndependent` plus `website`
and `phone` when truthy (so the internal fields `_source`, `_osmId` and
`_mergedFrom` are stripped); `website` and `phone` are never bound to `null`
or `undefined`; but `address` is ALWAYS present, and is bound to the literal
`null` exactly when the normalized address is absent. -/
theorem prepareForOutput_optional_field_policy (ns : NormalizedShop) :
    (prepareForOutputShop ns).map Prod.fst =
      ["id", "name", "address", "lat", "lng", "isIndependent"] ++
        (if tstr ns.website then ["website"] else []) ++
        (if tstr ns.phone then ["phone"] else []) ∧
    (("address", JVal.jnull) ∈ prepareForOutputShop ns ↔ ns.address = none) ∧
    ("website", JVal.jnull) ∉ prepareForOutputShop ns ∧
    ("website", JVal.undef) ∉ prepareForOutputShop ns ∧
    ("phone", JVal.jnull) ∉ prepareForOutputShop ns ∧
    ("phone", JVal.undef) ∉ prepareForOutputShop ns := by
  unfold prepareForOutputShop
  refine ⟨?_, ?_, ?_, ?_, ?_, ?_⟩ <;> split_ifs <;>
    cases ns.address <;> simp [jvalOfStrN, jvalOfIdU, jvalOfQN, jvalOfBoolU]

/-- Witness for the amended C9 at the record without an address. -/
theorem prepareForOutput_optional_field_policy_witness :
    (prepareForOutputShop (normalizeShop noAddressShop)).map Prod.fst =
      ["id", "name", "address", "lat", "lng", "isIndependent"] ++
        (if tstr (normalizeShop noAddressShop).website then ["website"] else []) ++
        (if tstr (normalizeShop noAddressShop).phone then ["phone"] else []) ∧
    (("address", JVal.jnull) ∈ prepareForOutputShop (normalizeShop noAddressShop) ↔
      (normalizeShop noAddressShop).address = none) ∧
    ("website", JVal.jnull) ∉ prepareForOutputShop (normalizeShop noAddressShop) ∧
    ("website", JVal.undef) ∉ prepareForOutputShop (normalizeShop noAddressShop) ∧
    ("phone", JVal.jnull) ∉ prepareForOutputShop (normalizeShop noAddressShop) ∧
    ("phone", JVal.undef) ∉ prepareForOutputShop (normalizeShop noAddressShop) :=
  prepareForOutput_optional_field_policy (normalizeShop noAddressShop)

/-! ### Claim C3 (amended) -/

/-- Inserting a shop that duplicates no existing cluster appends it. -/
theorem insertShop_of_no_dup (s : Shop) :
    ∀ (acc : List Shop), (∀ c ∈ acc, areDuplicates c s = false) →
      insertShop acc s = acc ++ [s] := by
  intro acc
  induction acc with
  | nil => intro _; rfl
  | cons c rest ih =>
    intro h
    rw [insertShop, h c (List.mem_cons_self c rest)]
    simp only [Bool.false_eq_true, if_false, List.cons_append, List.cons.injEq, true_and]
    exact ih fun d hd => h d (List.mem_cons_of_mem c hd)

/-- Folding a pairwise non-duplicate batch over `insertShop` appends it
unchanged, provided nothing in the accumulator duplicates the batch. -/
theorem dedup_foldl_pairwise (shops : List Shop) :
    ∀ (acc : List Shop),
      (∀ c ∈ acc, ∀ s ∈ shops, areDuplicates c s = false) →
      shops.Pairwise (fun a b => areDuplicates a b = false) →
      shops.foldl insertShop acc = acc ++ shops := by
  induction shops with
  | nil => intro acc _ _; simp
  | cons hd rest ih =>
    intro acc hcross hpw
    rw [List.foldl_cons,
      insertShop_of_no_dup hd acc (fun c hc => hcross c hc hd (List.mem_cons_self hd rest))]
    rw [ih (acc ++ [hd]) ?_ (List.Pairwise.of_cons hpw)]
    · simp
    · intro c hc s hs
      rcases List.mem_append.mp hc with hc | hc
      · exact hcross c hc s (List.mem_cons_of_mem hd hs)
      · rw [List.mem_singleton.mp hc]
        exact (List.pairwise_cons.mp hpw).1 s hs

/-- Claim C3 (amended): the output of `deduplicateShops` is pairwise
non-duplicate when the INPUT already is (the run is then the identity); in
general the invariant fails, because merging an incoming record into a
cluster can change that cluster's comparison fields into a duplicate of
another cluster that is never re-checked (see the counterexample). -/
theorem dedup_id_of_pairwise (shops : List Shop)
    (h : shops.Pairwise (fun a b => areDuplicates a b = false)) :
    deduplicateShops shops = shops ∧
    (deduplicateShops shops).Pairwise (fun a b => areDuplicates a b = false) := by
  have heq : deduplicateShops shops = shops := by
    unfold deduplicateShops
    simpa using dedup_foldl_pairwise shops [] (by simp) h
  exact ⟨heq, by rw [heq]; exact h⟩

/-- Witness for the amended C3 at two pairwise distinct records. -/
theorem dedup_id_of_pairwise_witness :
    ([soloA, soloB] : List Shop).Pairwise (fun a b => areDuplicates a b = false) ∧
    (deduplicateShops [soloA, soloB] = [soloA, soloB] ∧
      (deduplicateShops [soloA, soloB]).Pairwise (fun a b => areDuplicates a b = false)) :=
  ⟨by decide, dedup_id_of_pairwise [soloA, soloB] (by decide)⟩

/-! ### Claim C5 (amended) -/

/-- A successful coordinate match needs all four coordinates truthy. -/
theorem matchByCoordinates_truthy {a b : Shop} (h : matchByCoordinates a b = true) :
    tnum a.lat = true ∧ tnum a.lng = true ∧ tnum b.lat = true ∧ tnum b.lng = true := by
  refine ⟨?_, ?_, ?_, ?_⟩ <;>
    (by_contra hc
     rw [Bool.not_eq_true] at hc
     simp [matchByCoordinates, hc] at h)

/-- `matchByCoordinates` only reads the `lat`/`lng` fields of its first
argument. -/
theorem matchByCoordinates_congr {c w : Shop} (s : Shop)
    (hlat : c.lat = w.lat) (hlng : c.lng = w.lng) :
    matchByCoordinates c s = matchByCoordinates w s := by
  unfold matchByCoordinates
  rw [hlat, hlng]

/-- The merged source is the strictly higher-priority one (existing wins
ties). -/
theorem mergeShops_source (c s : Shop) :
    (mergeShops c s).source =
      if sourcePriority s.source > sourcePriority c.source then s.source else c.source := by
  by_cases hp : sourcePriority s.source > sourcePriority c.source <;>
    simp [mergeShops, hp]

/-- When the incoming record is the base and has truthy coordinates, the
merged record keeps them. -/
theorem mergeShops_coords_hi (c s : Shop)
    (hp : sourcePriority s.source > sourcePriority c.source)
    (ht : tnum s.lat = true) (ht2 : tnum s.lng = true) :
    (mergeShops c s).lat = s.lat ∧ (mergeShops c s).lng = s.lng := by
  constructor <;> simp [mergeShops, hp, jorQ, ht, ht2]

/-- When the existing record stays the base and has truthy coordinates, the
merged record keeps them. -/
theorem mergeShops_coords_lo (c s : Shop)
    (hp : ¬ sourcePriority s.source > sourcePriority c.source)
    (ht : tnum c.lat = true) (ht2 : tnum c.lng = true) :
    (mergeShops c s).lat = c.lat ∧ (mergeShops c s).lng = c.lng := by
  constructor <;> simp [mergeShops, hp, jorQ, ht, ht2]

/-- The surviving source tag is the initial one or one of the folded
records'. -/
theorem prioritySource_mem (l : List Shop) :
    ∀ init, prioritySource init l = init ∨ prioritySource init l ∈ l.map Shop.source := by
  induction l with
  | nil => intro init; left; rfl
  | cons s r ih =>
    intro init
    rw [prioritySource, List.foldl_cons]
    rcases ih (if sourcePriority s.source > sourcePriority init then s.source else init) with
        h | h
    · rw [prioritySource] at h
      rw [h]
      by_cases hp : sourcePriority s.source > sourcePriority init
      · right; rw [if_pos hp]; simp
      · left; rw [if_neg hp]
    · right
      rw [prioritySource] at h
      simp only [List.map_cons, List.mem_cons]
      right
      exact h

/-- The surviving source tag has at least the initial priority. -/
theorem prioritySource_ge_init (l : List Shop) :
    ∀ init, sourcePriority init ≤ sourcePriority (prioritySource init l) := by
  induction l with
  | nil => intro init; exact le_refl _
  | cons s r ih =>
    intro init
    rw [prioritySource, List.foldl_cons]
    have step := ih (if sourcePriority s.source > sourcePriority init then s.source else init)
    rw [prioritySource] at step
    refine le_trans ?_ step
    by_cases hp : sourcePriority s.source > sourcePriority init
    · rw [if_pos hp]; omega
    · rw [if_neg hp]

/-- The surviving source tag has at least every folded record's priority. -/
theorem prioritySource_ge_mem (l : List Shop) :
    ∀ init, ∀ s ∈ l, sourcePriority s.source ≤ sourcePriority (prioritySource init l) := by
  induction l with
  | nil => intro _ s hs; cases hs
  | cons x r ih =>
    intro init s hs
    rw [prioritySource, List.foldl_cons]
    rcases List.mem_cons.mp hs with h | h
    · subst h
      have step := prioritySource_ge_init r
        (if sourcePriority s.source > sourcePriority init then s.source else init)
      rw [show prioritySource
          (if sourcePriority s.source > sourcePriority init then s.source else init) r =
          List.foldl (fun acc t =>
            if sourcePriority t.source > sourcePriority acc then t.source else acc)
            (if sourcePriority s.source > sourcePriority init then s.source else init) r
        from rfl] at step
      refine le_trans ?_ step
      by_cases hp : sourcePriority s.source > sourcePriority init
      · rw [if_pos hp]
      · rw [if_neg hp]; omega
    · have := ih (if sourcePriority x.source > sourcePriority init then x.source else init) s h
      rw [prioritySource] at this
      exact this

/-- Core induction for C5: once a single cluster exists whose coordinates
coincide with some already-seen record's, folding in records that all match
each other by coordinates keeps exactly one cluster, whose source is the
priority fold. -/
theorem dedup_single_cluster (rest : List Shop) :
    ∀ (c w : Shop), c.lat = w.lat → c.lng = w.lng →
      (∀ s ∈ rest, matchByCoordinates w s = true) →
      (∀ s ∈ rest, ∀ t ∈ rest, matchByCoordinates s t = true) →
      ∃ m w', rest.foldl insertShop [c] = [m] ∧
        m.source = prioritySource c.source rest ∧
        m.lat = w'.lat ∧ m.lng = w'.lng ∧ (w' = w ∨ w' ∈ rest) := by
  induction rest with
  | nil =>
    intro c w hlat hlng _ _
    exact ⟨c, w, rfl, rfl, hlat, hlng, Or.inl rfl⟩
  | cons s rest' ih =>
    intro c w hlat hlng hw hall
    have hmatch : matchByCoordinates c s = true := by
      rw [matchByCoordinates_congr s hlat hlng]
      exact hw s (List.mem_cons_self s rest')
    have hdup : areDuplicates c s = true := by simp [areDuplicates, hmatch]
    have hins : insertShop [c] s = [mergeShops c s] := by simp [insertShop, hdup]
    rw [List.foldl_cons, hins]
    have tw := matchByCoordinates_truthy hmatch
    have hsource :
        prioritySource c.source (s :: rest') = prioritySource (mergeShops c s).source rest' := by
      rw [prioritySource, List.foldl_cons, ← mergeShops_source c s, prioritySource]
    by_cases hp : sourcePriority s.source > sourcePriority c.source
    · have hco := mergeShops_coords_hi c s hp tw.2.2.1 tw.2.2.2
      obtain ⟨m, w', hfold, hsrc, hml, hmn, hw'⟩ :=
        ih (mergeShops c s) s hco.1 hco.2
          (fun t ht => hall s (List.mem_cons_self s rest') t (List.mem_cons_of_mem s ht))
          (fun t ht u hu =>
            hall t (List.mem_cons_of_mem s ht) u (List.mem_cons_of_mem s hu))
      refine ⟨m, w', hfold, ?_, hml, hmn, ?_⟩
      · rw [hsrc, hsource]
      · rcases hw' with h | h
        · exact Or.inr (h ▸ List.mem_cons_self s rest')
        · exact Or.inr (List.mem_cons_of_mem s h)
    · have hco := mergeShops_coords_lo c s hp tw.1 tw.2.1
      obtain ⟨m, w', hfold, hsrc, hml, hmn, hw'⟩ :=
        ih (mergeShops c s) w (hco.1.trans hlat) (hco.2.trans hlng)
          (fun t ht => hw t (List.mem_cons_of_mem s ht))
          (fun t ht u hu =>
            hall t (List.mem_cons_of_mem s ht) u (List.mem_cons_of_mem s hu))
      refine ⟨m, w', hfold, ?_, hml, hmn, ?_⟩
      · rw [hsrc, hsource]
      · rcases hw' with h | h
        · exact Or.inl h
        · exact Or.inr (List.mem_cons_of_mem s h)

/-- Claim C5 (amended): for every NON-EMPTY input whose records all have
TRUTHY (non-zero) coordinates pairwise within the 0.0001 threshold,
`deduplicateShops` returns exactly one merged record; its `source` is the
running priority maximum over the inputs (ties toward the earliest), hence a
source of maximal merge priority taken from one of the inputs.  (The
original claim's "non-null" is not enough: zero coordinates are falsy and
never merged — see the counterexample.) -/
theorem dedup_close_coords (shops : List Shop) (hne : shops ≠ [])
    (hclose : ∀ s ∈ shops, ∀ t ∈ shops, matchByCoordinates s t = true) :
    ∃ m, deduplicateShops shops = [m] ∧
      m.source = prioritySource (shops.head hne).source shops.tail ∧
      (∀ s ∈ shops, sourcePriority s.source ≤ sourcePriority m.source) ∧
      m.source ∈ shops.map Shop.source := by
  match shops, hne with
  | h :: rest, _ =>
    obtain ⟨m, w', hfold, hsrc, _, _, _⟩ :=
      dedup_single_cluster rest h h rfl rfl
        (fun s hs => hclose h (List.mem_cons_self h rest) s (List.mem_cons_of_mem h hs))
        (fun s hs t ht =>
          hclose s (List.mem_cons_of_mem h hs) t (List.mem_cons_of_mem h ht))
    refine ⟨m, ?_, ?_, ?_, ?_⟩
    · unfold deduplicateShops
      rw [List.foldl_cons]
      exact hfold
    · simpa using hsrc
    · intro s hs
      rw [hsrc]
      rcases List.mem_cons.mp hs with h1 | h1
      · subst h1; exact prioritySource_ge_init rest s.source
      · exact prioritySource_ge_mem rest h.source s h1
    · rw [hsrc]
      rcases prioritySource_mem rest h.source with h1 | h1
      · rw [h1]; simp
      · simp only [List.map_cons, List.mem_cons]
        right
        exact h1

/-- Witness for the amended C5 at three same-location records of priorities
1, 0 and 2 (`osm`, `google-places`, `manual`): the single cluster takes the
`manual` source. -/
theorem dedup_close_coords_witness :
    (∀ s ∈ ([nearOsm, nearGoogle, nearManual] : List Shop),
      ∀ t ∈ ([nearOsm, nearGoogle, nearManual] : List Shop),
        matchByCoordinates s t = true) ∧
    ∃ m, deduplicateShops [nearOsm, nearGoogle, nearManual] = [m] ∧
      m.source = prioritySource nearOsm.source [nearGoogle, nearManual] ∧
      (∀ s ∈ ([nearOsm, nearGoogle, nearManual] : List Shop),
        sourcePriority s.source ≤ sourcePriority m.source) ∧
      m.source ∈ ([nearOsm, nearGoogle, nearManual] : List Shop).map Shop.source :=
  ⟨by decide,
    dedup_close_coords [nearOsm, nearGoogle, nearManual] (by decide) (by decide)⟩

/-! ### Claim C4: idempotence of `normalizeWebsite` (round-trip of the URL model) -/

theorem takeUntil_parts (p : Char → Bool) (l : Str) :
    (takeUntil p l).1 ++ (takeUntil p l).2 = l ∧
    (∀ c ∈ (takeUntil p l).1, p c = false) ∧
    ((takeUntil p l).2 = [] ∨ ∃ c t, (takeUntil p l).2 = c :: t ∧ p c = true) := by
  induction l with
  | nil => exact ⟨rfl, by simp [takeUntil], Or.inl rfl⟩
  | cons c s ih =>
    by_cases hp : p c
    · refine ⟨?_, ?_, Or.inr ⟨c, s, ?_, hp⟩⟩ <;> simp [takeUntil, hp]
    · obtain ⟨h1, h2, h3⟩ := ih
      refine ⟨?_, ?_, ?_⟩
      · simp only [takeUntil, hp, Bool.false_eq_true, if_false]
        simpa using h1
      · simp only [takeUntil, hp, Bool.false_eq_true, if_false]
        intro d hd
        rcases List.mem_cons.mp hd with h | h
        · rw [h]; exact Bool.eq_false_iff.mpr hp
        · exact h2 d h
      · simp only [takeUntil, hp, Bool.false_eq_true, if_false]
        exact h3

theorem takeUntil_no_stop (p : Char → Bool) (a : Str) (ha : ∀ c ∈ a, p c = false) :
    takeUntil p a = (a, []) := by
  induction a with
  | nil => rfl
  | cons c s ih =>
    have hc : p c = false := ha c (List.mem_cons_self c s)
    simp only [takeUntil, hc, Bool.false_eq_true, if_false]
    rw [ih (fun d hd => ha d (List.mem_cons_of_mem c hd))]

theorem takeUntil_append_stop (p : Char → Bool) (a : Str) (d : Char) (b : Str)
    (ha : ∀ c ∈ a, p c = false) (hd : p d = true) :
    takeUntil p (a ++ d :: b) = (a, d :: b) := by
  induction a with
  | nil => simp [takeUntil, hd]
  | cons c s ih =>
    have hc : p c = false := ha c (List.mem_cons_self c s)
    simp only [List.cons_append, takeUntil, hc, Bool.false_eq_true, if_false]
    rw [show s.append (d :: b) = s ++ d :: b from rfl,
      ih (fun e he => ha e (List.mem_cons_of_mem c he))]

theorem splitLastAt_none (ch : Char) (s : Str) (h : ∀ c ∈ s, (c == ch) = false) :
    splitLastAt ch s = none := by
  unfold splitLastAt
  rw [takeUntil_no_stop _ _ (fun c hc => h c (List.mem_reverse.mp hc))]

theorem splitLastAt_append (ch : Char) (u h : Str) (hh : ∀ c ∈ h, (c == ch) = false) :
    splitLastAt ch (u ++ ch :: h) = some (u, h) := by
  unfold splitLastAt
  rw [show (u ++ ch :: h).reverse = h.reverse ++ ch :: u.reverse by simp]
  rw [takeUntil_append_stop _ _ ch _ (fun c hc => hh c (List.mem_reverse.mp hc)) (by simp)]
  simp

theorem dropWhile_head_false {p : Char → Bool} {l : Str} (c : Char) (t : Str)
    (hl : l = c :: t) (hc : p c = false) : l.dropWhile p = l := by
  subst hl
  simp [List.dropWhile, hc]

theorem map_noop {f : Char → Char} {l : Str} (h : ∀ c ∈ l, f c = c) : l.map f = l := by
  induction l with
  | nil => rfl
  | cons c s ih =>
    rw [List.map_cons, h c (List.mem_cons_self c s), ih (fun d hd => h d (List.mem_cons_of_mem c hd))]

theorem toNat_ofNat_digit (n : Nat) (h1 : 48 ≤ n) (h2 : n ≤ 57) :
    (Char.ofNat n).toNat = n := by
  interval_cases n <;> decide

theorem toNat_ofNat_lower (n : Nat) (h1 : 97 ≤ n) (h2 : n ≤ 122) :
    (Char.ofNat n).toNat = n := by
  interval_cases n <;> decide

theorem asciiLower_cases (c : Char) :
    (65 ≤ c.toNat ∧ c.toNat ≤ 90 ∧ (asciiLower c).toNat = c.toNat + 32) ∨
    (¬(65 ≤ c.toNat ∧ c.toNat ≤ 90) ∧ asciiLower c = c) := by
  by_cases h : 65 ≤ c.toNat ∧ c.toNat ≤ 90
  · left
    refine ⟨h.1, h.2, ?_⟩
    rw [asciiLower, if_pos h]
    exact toNat_ofNat_lower _ (by omega) (by omega)
  · right
    exact ⟨h, by rw [asciiLower, if_neg h]⟩

theorem asciiLower_idem (c : Char) : asciiLower (asciiLower c) = asciiLower c := by
  rcases asciiLower_cases c with ⟨h1, h2, h3⟩ | ⟨h1, h2⟩
  · rw [asciiLower, if_neg (by omega)]
  · rw [h2, h2]

theorem lowerStr_idem (s : Str) : lowerStr (lowerStr s) = lowerStr s := by
  unfold lowerStr
  rw [List.map_map]
  exact List.map_congr_left (fun c _ => asciiLower_idem c)

theorem forbiddenHostCh_eq_false_iff (c : Char) :
    forbiddenHostCh c = false ↔
      (32 < c.toNat ∧ c.toNat ≠ 0x7F ∧ c.toNat ≠ 0xA0 ∧ c.toNat ≠ 0xFEFF ∧
       c.toNat ≠ 37 ∧ c.toNat ≠ 60 ∧ c.toNat ≠ 62 ∧ c.toNat ≠ 91 ∧
       c.toNat ≠ 93 ∧ c.toNat ≠ 94 ∧ c.toNat ≠ 124 ∧ c.toNat ≠ 34 ∧
       c.toNat ≠ 47 ∧ c.toNat ≠ 92 ∧ c.toNat ≠ 63 ∧ c.toNat ≠ 35 ∧
       c.toNat ≠ 64 ∧ c.toNat ≠ 58) := by
  simp [forbiddenHostCh, isC0Space]
  omega

theorem forbiddenHostCh_asciiLower (c : Char) (h : forbiddenHostCh c = false) :
    forbiddenHostCh (asciiLower c) = false := by
  rw [forbiddenHostCh_eq_false_iff] at h
  rcases asciiLower_cases c with ⟨h1, h2, h3⟩ | ⟨_, h2⟩
  · rw [forbiddenHostCh_eq_false_iff, h3]
    omega
  · rw [h2, forbiddenHostCh_eq_false_iff]
    omega

theorem natToCharsAux_digit_bounds :
    ∀ (fuel n : Nat), ∀ c ∈ natToCharsAux fuel n, 48 ≤ c.toNat ∧ c.toNat ≤ 57 := by
  intro fuel
  induction fuel with
  | zero => intro n c hc; cases hc
  | succ f ih =>
    intro n c hc
    rw [natToCharsAux] at hc
    by_cases hn : n = 0
    · rw [if_pos hn] at hc; cases hc
    · rw [if_neg hn] at hc
      rcases List.mem_append.mp hc with h | h
      · exact ih _ c h
      · rw [List.mem_singleton.mp h, toNat_ofNat_digit _ (by omega) (by omega)]
        omega

theorem digitsToNat_append_one (a : Str) (c : Char) :
    digitsToNat (a ++ [c]) = 10 * digitsToNat a + (c.toNat - 48) := by
  unfold digitsToNat
  rw [List.foldl_append]
  rfl

theorem natToCharsAux_val :
    ∀ (fuel n : Nat), n < 10 ^ fuel → digitsToNat (natToCharsAux fuel n) = n := by
  intro fuel
  induction fuel with
  | zero => intro n h; interval_cases n; rfl
  | succ f ih =>
    intro n h
    rw [natToCharsAux]
    by_cases hn : n = 0
    · rw [if_pos hn]; subst hn; rfl
    · rw [if_neg hn, digitsToNat_append_one,
        ih (n / 10) (by rw [pow_succ] at h; omega),
        toNat_ofNat_digit _ (by omega) (by omega)]
      omega

theorem natToChars_val (n : Nat) (h : n < 65536) : digitsToNat (natToChars n) = n := by
  unfold natToChars
  by_cases hn : n = 0
  · rw [if_pos hn]; subst hn; rfl
  · rw [if_neg hn]
    exact natToCharsAux_val 6 n (by norm_num; omega)

theorem natToChars_digit_bounds (n : Nat) :
    ∀ c ∈ natToChars n, 48 ≤ c.toNat ∧ c.toNat ≤ 57 := by
  unfold natToChars
  by_cases hn : n = 0
  · rw [if_pos hn]
    intro c hc
    rw [List.mem_singleton.mp hc]
    decide
  · rw [if_neg hn]
    exact natToCharsAux_digit_bounds 6 n

theorem natToChars_ne_nil (n : Nat) : natToChars n ≠ [] := by
  unfold natToChars
  by_cases hn : n = 0
  · rw [if_pos hn]; simp
  · rw [if_neg hn, natToCharsAux, if_neg hn]
    simp

theorem natToChars_all_digits (n : Nat) : (natToChars n).all isDigitCh = true := by
  rw [List.all_eq_true]
  intro c hc
  have := natToChars_digit_bounds n c hc
  simp [isDigitCh]
  omega

theorem parseScheme_https (rest : Str) :
    parseScheme (tl "https:" ++ '/' :: '/' :: rest) = some (tl "https:", rest) := by
  simp [parseScheme, ciStarts, tl, String.toList, asciiLower]

theorem parseScheme_http (rest : Str) :
    parseScheme (tl "http:" ++ '/' :: '/' :: rest) = some (tl "http:", rest) := by
  simp [parseScheme, ciStarts, tl, String.toList, asciiLower]

theorem beq_false_of_toNat_ne {c : Char} (d : Char) (h : c.toNat ≠ d.toNat) :
    (c == d) = false := by
  rw [beq_eq_false_iff_ne]
  intro he
  exact h (he ▸ rfl)

theorem host_nchars {c : Char} (h : forbiddenHostCh c = false) :
    (c == '@') = false ∧ (c == ':') = false ∧ isAuthEnd c = false ∧
    isSlashCh c = false ∧ isTabNl c = false ∧ isC0Space c = false := by
  rw [forbiddenHostCh_eq_false_iff] at h
  refine ⟨?_, ?_, ?_, ?_, ?_, ?_⟩
  · refine beq_false_of_toNat_ne '@' ?_
    have h64 : ('@').toNat = 64 := by decide
    omega
  · refine beq_false_of_toNat_ne ':' ?_
    have h58 : (':').toNat = 58 := by decide
    omega
  · simp [isAuthEnd]; omega
  · simp [isSlashCh]; omega
  · simp [isTabNl]; omega
  · simp [isC0Space]; omega

theorem digit_nchars {c : Char} (h1 : 48 ≤ c.toNat) (h2 : c.toNat ≤ 57) :
    (c == '@') = false ∧ (c == ':') = false ∧ isAuthEnd c = false ∧
    isTabNl c = false ∧ isC0Space c = false := by
  refine ⟨?_, ?_, ?_, ?_, ?_⟩
  · refine beq_false_of_toNat_ne '@' ?_
    have h64 : ('@').toNat = 64 := by decide
    omega
  · refine beq_false_of_toNat_ne ':' ?_
    have h58 : (':').toNat = 58 := by decide
    omega
  · simp [isAuthEnd]; omega
  · simp [isTabNl]; omega
  · simp [isC0Space]; omega

theorem ui_nchars {c : Char} (h : uiCharOK c = true) :
    isAuthEnd c = false ∧ isTabNl c = false := by
  simp [uiCharOK] at h
  exact ⟨h.1, h.2⟩

theorem serPort_no_at (port : Option Nat) : ∀ c ∈ serPort port, (c == '@') = false := by
  cases port with
  | none => intro c hc; cases hc
  | some n =>
    intro c hc
    rcases List.mem_cons.mp hc with h | h
    · rw [h]; decide
    · obtain ⟨h1, h2⟩ := natToChars_digit_bounds n c h
      exact (digit_nchars h1 h2).1

theorem hostport_no_at (host : Str) (port : Option Nat)
    (hforb : ∀ c ∈ host, forbiddenHostCh c = false) :
    ∀ c ∈ host ++ serPort port, (c == '@') = false := by
  intro c hc
  rcases List.mem_append.mp hc with h | h
  · exact (host_nchars (hforb c h)).1
  · exact serPort_no_at port c h

theorem parseUserinfo_build (ui : Option Str) (hui : uiOK ui) :
    parseUserinfo ui = some ui := by
  cases ui with
  | none => rfl
  | some u =>
    obtain ⟨hne, hok, hnorm⟩ := hui
    rw [parseUserinfo, if_pos (List.all_eq_true.mpr hok)]
    simp only [hnorm]
    rw [if_neg (by simpa using hne)]

theorem parsePort_build (proto : Str) (n : Nat) (h1 : n < 65536)
    (h2 : n ≠ defaultPort proto) :
    parsePort proto (natToChars n) = some (some n) := by
  rw [parsePort, if_neg (by simpa using natToChars_ne_nil n),
    if_pos (natToChars_all_digits n), natToChars_val n h1,
    if_neg (by omega), if_neg h2]

theorem parseAuthorityAt_build (proto : Str) (ui : Option Str) (host : Str)
    (port : Option Nat) (hui : uiOK ui) (hhost : hostOK host) (hport : portOK proto port) :
    parseAuthorityAt proto ui (host ++ serPort port) = some (ui, host, port) := by
  obtain ⟨hne, hforb, hlower⟩ := hhost
  have hsplit : takeUntil (fun c => c == ':') (host ++ serPort port) = (host, serPort port) := by
    cases port with
    | none =>
      rw [show serPort none = [] from rfl, List.append_nil]
      exact takeUntil_no_stop _ host (fun c hc => (host_nchars (hforb c hc)).2.1)
    | some n =>
      exact takeUntil_append_stop _ host ':' (natToChars n)
        (fun c hc => (host_nchars (hforb c hc)).2.1) (by decide)
  rw [parseAuthorityAt,
    if_neg (by simp only [List.isEmpty_eq_true, List.append_eq_nil]; intro hh; exact hne hh.1)]
  simp only [hsplit]
  rw [if_neg (by simpa using hne),
    if_neg (by
      simp only [Bool.not_eq_true']
      rw [Bool.not_eq_false, List.all_eq_true]
      intro c hc
      simp [hforb c hc])]
  rw [parseUserinfo_build ui hui]
  cases port with
  | none => simp only [serPort, hlower]
  | some n =>
    simp only [serPort]
    rw [parsePort_build proto n hport.1 hport.2, hlower]

theorem slash_of_authEnd {c : Char} (h : isAuthEnd c = false) : isSlashCh c = false := by
  simp [isAuthEnd] at h
  simp [isSlashCh]
  omega

theorem dropWhile_append_head {p : Char → Bool} (a b : Str) (ha : a ≠ [])
    (h : ∀ c ∈ a, p c = false) : (a ++ b).dropWhile p = a ++ b := by
  cases a with
  | nil => exact absurd rfl ha
  | cons c a' =>
    rw [List.cons_append, List.dropWhile_cons, h c (List.mem_cons_self c a')]
    simp

theorem authority_no_authEnd (ui : Option Str) (host : Str) (port : Option Nat)
    (hui : uiOK ui) (hforb : ∀ c ∈ host, forbiddenHostCh c = false) :
    ∀ c ∈ serUi ui ++ host ++ serPort port, isAuthEnd c = false := by
  intro c hc
  rcases List.mem_append.mp hc with hc | hc
  · rcases List.mem_append.mp hc with hc | hc
    · cases ui with
      | none => cases hc
      | some u =>
        rcases List.mem_append.mp hc with hc | hc
        · exact (ui_nchars (hui.2.1 c hc)).1
        · rw [List.mem_singleton.mp hc]; decide
    · exact (host_nchars (hforb c hc)).2.2.1
  · cases port with
    | none => cases hc
    | some n =>
      rcases List.mem_cons.mp hc with hc | hc
      · rw [hc]; decide
      · obtain ⟨h1, h2⟩ := natToChars_digit_bounds n c hc
        exact (digit_nchars h1 h2).2.2.1

theorem parseAuthority_build (proto : Str) (ui : Option Str) (host : Str)
    (port : Option Nat) (hui : uiOK ui) (hhost : hostOK host) (hport : portOK proto port) :
    parseAuthority proto (serUi ui ++ host ++ serPort port) = some (ui, host, port) := by
  cases ui with
  | none =>
    rw [show serUi none = [] from rfl, List.nil_append]
    rw [parseAuthority, splitLastAt_none '@' _ (hostport_no_at host port hhost.2.1)]
    exact parseAuthorityAt_build proto none host port trivial hhost hport
  | some u =>
    have hshape : serUi (some u) ++ host ++ serPort port = u ++ '@' :: (host ++ serPort port) := by
      simp [serUi]
    rw [hshape, parseAuthority, splitLastAt_append '@' u _ (hostport_no_at host port hhost.2.1)]
    exact parseAuthorityAt_build proto (some u) host port hui hhost hport

theorem parsePath3_build (p : Str) (q f : Option Str) (hp : pathOK p) (hq : searchOK q) :
    parsePath3 (serTail p q f) = (p, q, f) := by
  obtain ⟨⟨t, hpt⟩, hpqf, hpbs, _⟩ := hp
  have hpne : p.isEmpty = false := by rw [hpt]; rfl
  have hmap : p.map (fun c => if c == '\\' then '/' else c) = p :=
    map_noop (fun c hc => by rw [hpbs c hc]; rfl)
  have hmap2 : p.map (fun c => if c = '\\' then '/' else c) = p := by
    refine map_noop (fun c hc => if_neg ?_)
    have hb := hpbs c hc
    rw [beq_eq_false_iff_ne] at hb
    exact hb
  unfold serTail parsePath3
  cases q with
  | none =>
    cases f with
    | none =>
      rw [List.append_nil, List.append_nil, takeUntil_no_stop _ p hpqf]
      simp [hpne, hmap, hmap2]
    | some fs =>
      rw [List.append_nil, takeUntil_append_stop _ p '#' fs hpqf (by decide)]
      simp [hpne, hmap, hmap2]
  | some qs =>
    have hq1 := hq.1
    cases f with
    | none =>
      rw [List.append_nil, takeUntil_append_stop _ p '?' qs hpqf (by decide)]
      simp only [hpne, Bool.false_eq_true, if_false, hmap]
      rw [if_pos (by decide), takeUntil_no_stop _ qs hq1]
    | some fs =>
      rw [List.append_assoc, List.cons_append,
        takeUntil_append_stop _ p '?' (qs ++ '#' :: fs) hpqf (by decide)]
      simp only [hpne, Bool.false_eq_true, if_false, hmap]
      rw [if_pos (by decide), takeUntil_append_stop _ qs '#' fs hq1 (by decide)]

theorem authority_ne_nil (ui : Option Str) (host : Str) (port : Option Nat)
    (hne : host ≠ []) : serUi ui ++ host ++ serPort port ≠ [] := by
  intro h
  rw [List.append_assoc, List.append_eq_nil] at h
  rw [List.append_eq_nil] at h
  exact hne h.2.1

theorem authority_split (ui : Option Str) (host : Str) (port : Option Nat)
    (p : Str) (q f : Option Str)
    (hui : uiOK ui) (hhost : hostOK host) (hpath : pathOK p) :
    takeUntil isAuthEnd (serUi ui ++ host ++ serPort port ++ serTail p q f) =
      (serUi ui ++ host ++ serPort port, serTail p q f) := by
  obtain ⟨t, hpt⟩ := hpath.1
  obtain ⟨rest2, hshape⟩ : ∃ r2, serTail p q f = '/' :: r2 :=
    ⟨t ++ ((match q with | some q2 => '?' :: q2 | none => []) ++
      (match f with | some f2 => '#' :: f2 | none => [])), by
        unfold serTail
        rw [hpt]
        simp only [List.cons_append, List.append_assoc]⟩
  rw [hshape]
  rw [takeUntil_append_stop _ _ '/' _
    (authority_no_authEnd ui host port hui hhost.2.1) (by decide)]

theorem dropSlash_noop (ui : Option Str) (host : Str) (port : Option Nat) (tail : Str)
    (hui : uiOK ui) (hhost : hostOK host) :
    (serUi ui ++ host ++ serPort port ++ tail).dropWhile isSlashCh =
      serUi ui ++ host ++ serPort port ++ tail := by
  exact dropWhile_append_head _ _
    (authority_ne_nil ui host port hhost.1)
    (fun c hc => slash_of_authEnd (authority_no_authEnd ui host port hui hhost.2.1 c hc))

theorem serialize_shape (r : URLRec) : serializeURL r = r.protocol ++ '/' :: '/' ::
    (serUi r.userinfo ++ r.hostname ++ serPort r.port ++
      serTail r.pathname r.search r.frag) := by
  unfold serializeURL
  rw [show tl "//" = ['/', '/'] from rfl]
  simp [List.append_assoc]

theorem parseMain_build (r : URLRec) (hwf : URLWF r) :
    parseMain (serializeURL r) = some r := by
  obtain ⟨hproto, hui, hhost, hport, hpath, hq, hf, hlast⟩ := hwf
  have hcond : (r.pathname.all tailCharOK && (r.search.getD []).all tailCharOK &&
      (r.frag.getD []).all tailCharOK &&
      tailLastOK (serTail r.pathname r.search r.frag)) = true := by
    simp only [Bool.and_eq_true]
    refine ⟨⟨⟨?_, ?_⟩, ?_⟩, hlast⟩
    · exact List.all_eq_true.mpr hpath.2.2.2
    · cases hs : r.search with
      | none => rfl
      | some qs =>
        rw [hs] at hq
        exact List.all_eq_true.mpr hq.2
    · cases hs : r.frag with
      | none => rfl
      | some fs =>
        rw [hs] at hf
        exact List.all_eq_true.mpr hf
  rcases hproto with hp | hp <;>
  · rw [parseMain, serialize_shape, hp]
    first
      | rw [parseScheme_http]
      | rw [parseScheme_https]
    simp only
    rw [dropSlash_noop _ _ _ _ hui hhost,
      authority_split r.userinfo r.hostname r.port r.pathname r.search r.frag hui hhost hpath]
    simp only
    rw [parseAuthority_build _ r.userinfo r.hostname r.port hui hhost (hp ▸ hport)]
    simp only
    rw [parsePath3_build r.pathname r.search r.frag hpath hq]
    simp only [hcond, if_true]
    rw [← hp]

theorem hostport_no_authEnd (host : Str) (port : Option Nat)
    (hforb : ∀ c ∈ host, forbiddenHostCh c = false) :
    ∀ c ∈ host ++ serPort port, isAuthEnd c = false := by
  intro c hc
  rcases List.mem_append.mp hc with h | h
  · exact (host_nchars (hforb c h)).2.2.1
  · cases port with
    | none => cases h
    | some n =>
      rcases List.mem_cons.mp h with h | h
      · rw [h]; decide
      · obtain ⟨h1, h2⟩ := natToChars_digit_bounds n c h
        exact (digit_nchars h1 h2).2.2.1

theorem parseMain_bare (proto host : Str) (port : Option Nat)
    (hproto : proto = tl "http:" ∨ proto = tl "https:")
    (hhost : hostOK host) (hport : portOK proto port) :
    parseMain (proto ++ '/' :: '/' :: (host ++ serPort port)) =
      some { protocol := proto, hostname := host, port := port } := by
  have hnoend := hostport_no_authEnd host port hhost.2.1
  have hdrop : (host ++ serPort port).dropWhile isSlashCh = host ++ serPort port :=
    dropWhile_append_head host (serPort port) hhost.1
      (fun c hc => slash_of_authEnd ((host_nchars (hhost.2.1 c hc)).2.2.1))
  rcases hproto with hp | hp <;>
  · rw [parseMain, hp]
    first
      | rw [parseScheme_http]
      | rw [parseScheme_https]
    simp only
    rw [hdrop, takeUntil_no_stop _ _ hnoend]
    simp only
    rw [show host ++ serPort port = serUi none ++ host ++ serPort port by simp [serUi]]
    rw [parseAuthority_build _ none host port trivial hhost (hp ▸ hport)]
    simp only
    rw [show parsePath3 [] = (['/'], none, none) from rfl]
    simp only
    rw [if_pos (by decide), ← hp]

theorem parseScheme_proto {s proto rest} (h : parseScheme s = some (proto, rest)) :
    proto = tl "http:" ∨ proto = tl "https:" := by
  unfold parseScheme at h
  cases h1 : ciStarts (tl "https://") s with
  | some r =>
    rw [h1] at h
    simp only [Option.some.injEq, Prod.mk.injEq] at h
    exact Or.inr h.1.symm
  | none =>
    rw [h1] at h
    cases h2 : ciStarts (tl "http://") s with
    | some r =>
      rw [h2] at h
      simp only [Option.some.injEq, Prod.mk.injEq] at h
      exact Or.inl h.1.symm
    | none => rw [h2] at h; cases h

theorem uiNormalize_subset {u : Str} : ∀ c ∈ uiNormalize u, c ∈ u := by
  intro c hc
  simp only [uiNormalize] at hc
  rcases ht : (takeUntil (fun c => c == ':') u).2 with _ | ⟨d, _ | ⟨e, t⟩⟩ <;>
    rw [ht] at hc <;> simp only at hc
  · exact hc
  · have hparts := (takeUntil_parts (fun c => c == ':') u).1
    rw [← hparts]
    exact List.mem_append.mpr (Or.inl hc)
  · exact hc

theorem uiNormalize_fix (u : Str) : uiNormalize (uiNormalize u) = uiNormalize u := by
  rcases ht : (takeUntil (fun c => c == ':') u).2 with _ | ⟨d, _ | ⟨e, t⟩⟩
  · have hv : uiNormalize u = u := by simp only [uiNormalize]; rw [ht]
    rw [hv]
    simp only [uiNormalize]
    rw [ht]
  · have hv : uiNormalize u = (takeUntil (fun c => c == ':') u).1 := by
      simp only [uiNormalize]; rw [ht]
    have hno := (takeUntil_parts (fun c => c == ':') u).2.1
    rw [hv]
    simp only [uiNormalize]
    rw [takeUntil_no_stop _ _ hno]
  · have hv : uiNormalize u = u := by simp only [uiNormalize]; rw [ht]
    rw [hv]
    simp only [uiNormalize]
    rw [ht]

theorem parseUserinfo_wf {rawUi ui : Option Str} (h : parseUserinfo rawUi = some ui) :
    uiOK ui := by
  cases rawUi with
  | none =>
    injection h with h
    rw [← h]; trivial
  | some u =>
    simp only [parseUserinfo] at h
    by_cases hall : u.all uiCharOK
    · rw [if_pos hall] at h
      injection h with h
      by_cases he : (uiNormalize u).isEmpty
      · rw [if_pos he] at h; rw [← h]; trivial
      · rw [if_neg he] at h
        rw [← h]
        refine ⟨by simpa using he, ?_, uiNormalize_fix u⟩
        intro c hc
        exact List.all_eq_true.mp hall c (uiNormalize_subset c hc)
    · rw [if_neg hall] at h; cases h

theorem parsePort_wf {proto : Str} {p : Str} {port : Option Nat}
    (h : parsePort proto p = some port) : portOK proto port := by
  simp only [parsePort] at h
  split_ifs at h with h1 h2 h3 h4
  · injection h with h
    rw [← h]
    exact trivial
  · injection h with h
    rw [← h]
    exact trivial
  · injection h with h
    rw [← h]
    exact ⟨by omega, h4⟩

theorem parseAuthorityAt_wf {proto : Str} {rawUi : Option Str} {hostport : Str}
    {ui : Option Str} {host : Str} {port : Option Nat}
    (h : parseAuthorityAt proto rawUi hostport = some (ui, host, port)) :
    uiOK ui ∧ hostOK host ∧ portOK proto port := by
  simp only [parseAuthorityAt] at h
  split_ifs at h with h1 h2 h3
  cases hu : parseUserinfo rawUi with
  | none => rw [hu] at h; cases h
  | some ui2 =>
    rw [hu] at h
    simp only at h
    have hall : List.all (takeUntil (fun c => c == ':') hostport).1
        (fun c => !forbiddenHostCh c) = true := by
      cases hx : List.all (takeUntil (fun c => c == ':') hostport).1
          (fun c => !forbiddenHostCh c) with
      | true => rfl
      | false => exact absurd (by rw [hx]; rfl) h3
    have hforb : ∀ c ∈ (takeUntil (fun c => c == ':') hostport).1,
        forbiddenHostCh c = false := by
      intro c hc
      have := List.all_eq_true.mp hall c hc
      simpa using this
    have hhost : hostOK (lowerStr (takeUntil (fun c => c == ':') hostport).1) := by
      refine ⟨?_, ?_, lowerStr_idem _⟩
      · intro hemp
        rw [lowerStr, List.map_eq_nil_iff] at hemp
        rw [List.isEmpty_eq_true] at h2
        exact h2 hemp
      · intro c hc
        rw [lowerStr, List.mem_map] at hc
        obtain ⟨d, hd, hdc⟩ := hc
        rw [← hdc]
        exact forbiddenHostCh_asciiLower d (hforb d hd)
    rcases hp2 : (takeUntil (fun c => c == ':') hostport).2 with _ | ⟨d, ptext⟩
    · rw [hp2] at h
      simp only at h
      injection h with h
      injection h with ha hb
      injection hb with hb hc
      rw [← ha, ← hb, ← hc]
      exact ⟨parseUserinfo_wf hu, hhost, trivial⟩
    · rw [hp2] at h
      simp only at h
      cases hpp : parsePort proto ptext with
      | none => rw [hpp] at h; cases h
      | some port2 =>
        rw [hpp] at h
        simp only at h
        injection h with h
        injection h with ha hb
        injection hb with hb hc
        rw [← ha, ← hb, ← hc]
        exact ⟨parseUserinfo_wf hu, hhost, parsePort_wf hpp⟩

theorem parseAuthority_wf {proto auth : Str} {ui : Option Str} {host : Str} {port : Option Nat}
    (h : parseAuthority proto auth = some (ui, host, port)) :
    uiOK ui ∧ hostOK host ∧ portOK proto port := by
  unfold parseAuthority at h
  cases hs : splitLastAt '@' auth with
  | none => rw [hs] at h; exact parseAuthorityAt_wf h
  | some uhp =>
    rw [hs] at h
    exact parseAuthorityAt_wf h

theorem char_eq_of_toNat {c d : Char} (h : c.toNat = d.toNat) : c = d := by
  rw [← Char.ofNat_toNat c, ← Char.ofNat_toNat d, h]

theorem beq_true_of_toNat_eq {c : Char} (d : Char) (h : c.toNat = d.toNat) :
    (c == d) = true := by
  rw [beq_iff_eq]
  exact char_eq_of_toNat h

theorem toNat_ne_of_beq_false {c d : Char} (h : (c == d) = false) : c.toNat ≠ d.toNat := by
  intro he
  rw [beq_true_of_toNat_eq d he] at h
  cases h

theorem mapped_path_props (u : Str) (hu : ∀ c ∈ u, ((c == '?') || (c == '#')) = false) :
    (∀ c ∈ u.map (fun c => if c == '\\' then '/' else c), ((c == '?') || (c == '#')) = false) ∧
    (∀ c ∈ u.map (fun c => if c == '\\' then '/' else c), (c == '\\') = false) := by
  constructor <;>
  · intro c hc
    rw [List.mem_map] at hc
    obtain ⟨d, hd, hdc⟩ := hc
    rw [← hdc]
    by_cases hb : (d == '\\') = true
    · rw [if_pos hb]; decide
    · rw [if_neg hb]
      first
        | exact hu d hd
        | exact Bool.not_eq_true _ ▸ hb

theorem parsePath3_wf {rest : Str} {p : Str} {q f : Option Str}
    (hhead : ∀ c t, rest = c :: t → isAuthEnd c = true)
    (h : parsePath3 rest = (p, q, f)) :
    ((∃ t, p = '/' :: t) ∧ (∀ c ∈ p, ((c == '?') || (c == '#')) = false) ∧
      (∀ c ∈ p, (c == '\\') = false)) ∧
    (∀ qs, q = some qs → ∀ c ∈ qs, (c == '#') = false) := by
  have hno1 := (takeUntil_parts (fun c => c == '?' || c == '#') rest).2.1
  have hparts := (takeUntil_parts (fun c => c == '?' || c == '#') rest).1
  have hpath : (∃ t, (if (takeUntil (fun c => c == '?' || c == '#') rest).1.isEmpty then ['/']
      else (takeUntil (fun c => c == '?' || c == '#') rest).1.map
        (fun c => if c == '\\' then '/' else c)) = '/' :: t) ∧
      (∀ c ∈ (if (takeUntil (fun c => c == '?' || c == '#') rest).1.isEmpty then ['/']
      else (takeUntil (fun c => c == '?' || c == '#') rest).1.map
        (fun c => if c == '\\' then '/' else c)), ((c == '?') || (c == '#')) = false) ∧
      (∀ c ∈ (if (takeUntil (fun c => c == '?' || c == '#') rest).1.isEmpty then ['/']
      else (takeUntil (fun c => c == '?' || c == '#') rest).1.map
        (fun c => if c == '\\' then '/' else c)), (c == '\\') = false) := by
    rcases hPe : (takeUntil (fun c => c == '?' || c == '#') rest).1 with _ | ⟨c0, t0⟩
    · refine ⟨⟨[], by simp⟩, ?_, ?_⟩ <;>
      · simp only [List.isEmpty_nil, if_true]
        intro c hc
        rw [List.mem_singleton.mp hc]
        decide
    · have hparts2 := hparts
      rw [hPe] at hparts2
      have hrest : rest = c0 :: (t0 ++ (takeUntil (fun c => c == '?' || c == '#') rest).2) := by
        conv_lhs => rw [← hparts2]
        rfl
      have hauth : isAuthEnd c0 = true := hhead c0 _ hrest
      have hpred : ((c0 == '?') || (c0 == '#')) = false :=
        hno1 c0 (by rw [hPe]; exact List.mem_cons_self c0 t0)
      rw [Bool.or_eq_false_iff] at hpred
      have hne63 := toNat_ne_of_beq_false hpred.1
      have hne35 := toNat_ne_of_beq_false hpred.2
      have h63 : ('?').toNat = 63 := by decide
      have h35 : ('#').toNat = 35 := by decide
      simp only [isAuthEnd, Bool.or_eq_true, beq_iff_eq] at hauth
      have hc0 : c0.toNat = 47 ∨ c0.toNat = 92 := by omega
      have hhd : (if c0 == '\\' then '/' else c0) = '/' := by
        rcases hc0 with hc0 | hc0
        · rw [if_neg (by
            rw [Bool.not_eq_true]
            refine beq_false_of_toNat_ne '\\' ?_
            have : ('\\').toNat = 92 := by decide
            omega)]
          exact char_eq_of_toNat (by rw [hc0]; decide)
        · rw [if_pos (beq_true_of_toNat_eq '\\' (by rw [hc0]; decide))]
      have huprops : ∀ c ∈ (c0 :: t0), ((c == '?') || (c == '#')) = false := by
        intro c hc
        exact hno1 c (by rw [hPe]; exact hc)
      have hmapprops := mapped_path_props (c0 :: t0) huprops
      simp only [List.isEmpty_cons, Bool.false_eq_true, if_false]
      exact ⟨⟨t0.map (fun c => if c == '\\' then '/' else c), by rw [List.map_cons, hhd]⟩,
        hmapprops.1, hmapprops.2⟩
  simp only [parsePath3] at h
  rcases h2 : (takeUntil (fun c => c == '?' || c == '#') rest).2 with _ | ⟨d, rest2⟩
  · rw [h2] at h
    simp only at h
    injection h with hA hBC
    injection hBC with hB hC
    rw [← hA]
    refine ⟨hpath, ?_⟩
    intro qs hqs
    rw [← hB] at hqs
    cases hqs
  · rw [h2] at h
    simp only at h
    by_cases hd : (d == '?') = true
    · rw [if_pos hd] at h
      have hnoq := (takeUntil_parts (fun c => c == '#') rest2).2.1
      rcases h3 : (takeUntil (fun c => c == '#') rest2).2 with _ | ⟨e, fs⟩ <;>
        rw [h3] at h <;> simp only at h <;>
        [skip; skip] <;>
      · injection h with hA hBC
        injection hBC with hB hC
        rw [← hA]
        refine ⟨hpath, ?_⟩
        intro qs hqs
        rw [← hB] at hqs
        injection hqs with hqs
        rw [← hqs]
        exact hnoq
    · rw [if_neg hd] at h
      injection h with hA hBC
      injection hBC with hB hC
      rw [← hA]
      refine ⟨hpath, ?_⟩
      intro qs hqs
      rw [← hB] at hqs
      cases hqs

theorem parseMain_wf {z : Str} {r : URLRec} (h : parseMain z = some r) : URLWF r := by
  unfold parseMain at h
  cases hs : parseScheme z with
  | none => rw [hs] at h; cases h
  | some pr =>
    obtain ⟨proto, rest0⟩ := pr
    rw [hs] at h
    simp only at h
    cases ha : parseAuthority proto (takeUntil isAuthEnd (rest0.dropWhile isSlashCh)).1 with
    | none => rw [ha] at h; cases h
    | some ahp =>
      obtain ⟨ui, host, port⟩ := ahp
      rw [ha] at h
      simp only at h
      rcases hp3 : parsePath3 (takeUntil isAuthEnd (rest0.dropWhile isSlashCh)).2
        with ⟨pathname, q, f⟩
      rw [hp3] at h
      simp only at h
      split_ifs at h with hcond
      injection h with h
      simp only [Bool.and_eq_true] at hcond
      obtain ⟨⟨⟨hcp, hcq⟩, hcf⟩, hcl⟩ := hcond
      have hhead : ∀ c t, (takeUntil isAuthEnd (rest0.dropWhile isSlashCh)).2 = c :: t →
          isAuthEnd c = true := by
        intro c t hct
        rcases (takeUntil_parts isAuthEnd (rest0.dropWhile isSlashCh)).2.2 with h0 | ⟨c2, t2, he, hp⟩
        · rw [h0] at hct; cases hct
        · rw [he] at hct
          injection hct with h1 _
          rw [h1] at hp
          exact hp
      have hwf3 := parsePath3_wf hhead hp3
      have hauth := parseAuthority_wf ha
      rw [← h]
      refine ⟨parseScheme_proto hs, hauth.1, hauth.2.1, hauth.2.2, ?_, ?_, ?_, hcl⟩
      · exact ⟨hwf3.1.1, hwf3.1.2.1, hwf3.1.2.2, List.all_eq_true.mp hcp⟩
      · cases hq : q with
        | none => trivial
        | some qs =>
          refine ⟨hwf3.2 qs hq, ?_⟩
          rw [hq] at hcq
          exact List.all_eq_true.mp hcq
      · cases hf : f with
        | none => trivial
        | some fs =>
          rw [hf] at hcf
          exact List.all_eq_true.mp hcf

theorem getLast?_append_right (l1 l2 : Str) (c : Char) (h : l2.getLast? = some c) :
    (l1 ++ l2).getLast? = some c := by
  rw [List.getLast?_append, h]
  rfl

theorem dropWhile_noop_head {p : Char → Bool} {l : Str}
    (h : ∀ c, l.head? = some c → p c = false) : l.dropWhile p = l := by
  cases l with
  | nil => rfl
  | cons c t =>
    rw [List.dropWhile_cons, h c rfl]
    simp

theorem jsTrim_noop {l : Str}
    (h1 : ∀ c, l.head? = some c → isJsWs c = false)
    (h2 : ∀ c, l.getLast? = some c → isJsWs c = false) : jsTrim l = l := by
  unfold jsTrim
  rw [dropWhile_noop_head h1]
  rw [dropWhile_noop_head (fun c hc => h2 c (by rwa [List.head?_reverse] at hc))]
  exact List.reverse_reverse l

theorem cleanse_noop {l : Str} (hf : ∀ c ∈ l, isTabNl c = false)
    (h1 : ∀ c, l.head? = some c → isC0Space c = false)
    (h2 : ∀ c, l.getLast? = some c → isC0Space c = false) : cleanse l = l := by
  unfold cleanse
  rw [List.filter_eq_self.mpr (fun c hc => by rw [hf c hc]; rfl)]
  rw [dropWhile_noop_head h1]
  rw [dropWhile_noop_head (fun c hc => h2 c (by rwa [List.head?_reverse] at hc))]
  exact List.reverse_reverse l

theorem serTail_char_fact {p : Str} {q f : Option Str}
    (hp : pathOK p) (hq : searchOK q) (hf : fragOK f) :
    ∀ c ∈ serTail p q f, isTabNl c = false ∧ c.toNat ≠ 0xA0 ∧ c.toNat ≠ 0xFEFF := by
  have hok : ∀ c : Char, tailCharOK c = true →
      isTabNl c = false ∧ c.toNat ≠ 0xA0 ∧ c.toNat ≠ 0xFEFF := by
    intro c hc
    simp only [tailCharOK, Bool.and_eq_true, Bool.not_eq_true', bne_iff_ne, ne_eq] at hc
    exact ⟨hc.1.1, hc.1.2, hc.2⟩
  intro c hc
  unfold serTail at hc
  rcases List.mem_append.mp hc with hc | hc
  · rcases List.mem_append.mp hc with hc | hc
    · exact hok c (hp.2.2.2 c hc)
    · cases q with
      | none => cases hc
      | some qs =>
        rcases List.mem_cons.mp hc with hc | hc
        · rw [hc]; refine ⟨by decide, by decide, by decide⟩
        · exact hok c (hq.2 c hc)
  · cases f with
    | none => cases hc
    | some fs =>
      rcases List.mem_cons.mp hc with hc | hc
      · rw [hc]; refine ⟨by decide, by decide, by decide⟩
      · exact hok c (hf c hc)

theorem serTail_ne_nil {p : Str} {q f : Option Str} (hp : pathOK p) :
    serTail p q f ≠ [] := by
  obtain ⟨t, hpt⟩ := hp.1
  unfold serTail
  rw [hpt]
  simp

theorem hostport_chars {host : Str} {port : Option Nat}
    (hforb : ∀ c ∈ host, forbiddenHostCh c = false) :
    ∀ c ∈ host ++ serPort port,
      isTabNl c = false ∧ isJsWs c = false ∧ isC0Space c = false := by
  intro c hc
  rcases List.mem_append.mp hc with h | h
  · have hh := (forbiddenHostCh_eq_false_iff c).mp (hforb c h)
    refine ⟨by simp [isTabNl]; omega, by simp [isJsWs]; omega, by simp [isC0Space]; omega⟩
  · cases port with
    | none => cases h
    | some n =>
      rcases List.mem_cons.mp h with h | h
      · rw [h]; refine ⟨by decide, by decide, by decide⟩
      · obtain ⟨h1, h2⟩ := natToChars_digit_bounds n c h
        refine ⟨by simp [isTabNl]; omega, by simp [isJsWs]; omega, by simp [isC0Space]; omega⟩

theorem mem_of_getLast?_eq {l : Str} {e : Char} (h : l.getLast? = some e) : e ∈ l := by
  rw [← List.head?_reverse] at h
  refine List.mem_reverse.mp ?_
  cases hl : l.reverse with
  | nil => rw [hl] at h; cases h
  | cons a t =>
    rw [hl] at h
    injection h with h
    rw [← h]
    exact List.mem_cons_self a t

theorem normWeb_reparse_bare (proto host : Str) (port : Option Nat)
    (hproto : proto = tl "http:" ∨ proto = tl "https:")
    (hhost : hostOK host) (hport : portOK proto port)
    (hdot : host.contains '.' = true) :
    normalizeWebsite (some (proto ++ tl "//" ++ host ++ serPort port)) =
      some (proto ++ tl "//" ++ host ++ serPort port) := by
  have hyshape : proto ++ tl "//" ++ host ++ serPort port =
      proto ++ '/' :: '/' :: (host ++ serPort port) := by
    rw [show tl "//" = ['/', '/'] from rfl]
    simp [List.append_assoc]
  have hprotochars : ∀ c ∈ proto, isTabNl c = false ∧ isJsWs c = false ∧ isC0Space c = false := by
    rcases hproto with hp | hp <;> rw [hp] <;> decide
  have hplen : 5 ≤ proto.length := by
    rcases hproto with hp | hp <;> rw [hp] <;> decide
  have hpc := @hostport_chars host port hhost.2.1
  have hhostne : host ++ serPort port ≠ [] := by
    intro he
    rw [List.append_eq_nil] at he
    exact hhost.1 he.1
  obtain ⟨e, hlastc, hejs, hec0⟩ : ∃ e, (host ++ serPort port).getLast? = some e ∧
      isJsWs e = false ∧ isC0Space e = false := by
    cases hgl : (host ++ serPort port).getLast? with
    | none => exact absurd (List.getLast?_eq_none_iff.mp hgl) hhostne
    | some e =>
      have hmem : e ∈ host ++ serPort port := mem_of_getLast?_eq hgl
      exact ⟨e, rfl, (hpc e hmem).2.1, (hpc e hmem).2.2⟩
  have hylast : (proto ++ '/' :: '/' :: (host ++ serPort port)).getLast? = some e := by
    refine getLast?_append_right _ _ _ ?_
    rw [show ('/' :: '/' :: (host ++ serPort port)) =
      ['/', '/'] ++ (host ++ serPort port) from rfl]
    exact getLast?_append_right _ _ _ hlastc
  have hyhead : (proto ++ '/' :: '/' :: (host ++ serPort port)).head? = some 'h' := by
    rcases hproto with hp | hp <;> rw [hp] <;> rfl
  have hyne : proto ++ '/' :: '/' :: (host ++ serPort port) ≠ [] := by
    intro he
    have := congrArg List.length he
    simp only [List.length_append, List.length_cons, List.length_nil] at this
    omega
  have hallchars : ∀ c ∈ proto ++ '/' :: '/' :: (host ++ serPort port), isTabNl c = false := by
    intro c hc
    rcases List.mem_append.mp hc with h | h
    · exact (hprotochars c h).1
    · rcases List.mem_cons.mp h with h | h
      · rw [h]; decide
      · rcases List.mem_cons.mp h with h | h
        · rw [h]; decide
        · exact (hpc c h).1
  have htrim : jsTrim (proto ++ '/' :: '/' :: (host ++ serPort port)) =
      proto ++ '/' :: '/' :: (host ++ serPort port) := by
    refine jsTrim_noop ?_ ?_
    · intro c hc
      rw [hyhead] at hc
      injection hc with hc
      rw [← hc]
      decide
    · intro c hc
      rw [hylast] at hc
      injection hc with hc
      rw [← hc]
      exact hejs
  have hclean : cleanse (proto ++ '/' :: '/' :: (host ++ serPort port)) =
      proto ++ '/' :: '/' :: (host ++ serPort port) := by
    refine cleanse_noop hallchars ?_ ?_
    · intro c hc
      rw [hyhead] at hc
      injection hc with hc
      rw [← hc]
      decide
    · intro c hc
      rw [hylast] at hc
      injection hc with hc
      rw [← hc]
      exact hec0
  have hlen : ¬((proto ++ '/' :: '/' :: (host ++ serPort port)).length < 4) := by
    simp only [List.length_append, List.length_cons]
    omega
  have hbare := parseMain_bare proto host port hproto hhost hport
  have hps : parseScheme (proto ++ '/' :: '/' :: (host ++ serPort port)) =
      some (proto, host ++ serPort port) := by
    rcases hproto with hp | hp <;> rw [hp]
    · exact parseScheme_http _
    · exact parseScheme_https _
  have hneq : ¬(proto ++ '/' :: '/' :: (host ++ serPort port) = tl "http://" ∨
      proto ++ '/' :: '/' :: (host ++ serPort port) = tl "https://") := by
    intro hor
    rcases hor with he | he
    · rw [he, show parseMain (tl "http://") = none from rfl] at hbare
      cases hbare
    · rw [he, show parseMain (tl "https://") = none from rfl] at hbare
      cases hbare
  rw [hyshape]
  simp only [normalizeWebsite, Option.getD_some]
  rw [htrim]
  rw [if_neg (by simp only [tstr, Bool.not_not, List.isEmpty_eq_true]; exact hyne)]
  rw [if_neg hlen, if_neg hneq, if_pos (by rw [hps]; rfl)]
  simp only [parseURL]
  rw [hclean, hbare]
  simp only
  rw [if_neg (by
    simp only [Bool.or_eq_true, Bool.not_eq_true', List.isEmpty_eq_true]
    push_neg
    exact ⟨hhost.1, by simpa using hdot⟩)]
  rw [if_pos trivial, hyshape]

theorem normWeb_reparse_full (r : URLRec) (hwf : URLWF r)
    (hdot : r.hostname.contains '.' = true) (hnr : r.pathname ≠ ['/']) :
    normalizeWebsite (some (serializeURL r)) = some (serializeURL r) := by
  obtain ⟨hproto, hui, hhost, hport, hpath, hq, hf, hlast⟩ := hwf
  have hwf2 : URLWF r := ⟨hproto, hui, hhost, hport, hpath, hq, hf, hlast⟩
  have hshape := serialize_shape r
  have hprotochars : ∀ c ∈ r.protocol,
      isTabNl c = false ∧ isJsWs c = false ∧ isC0Space c = false := by
    rcases hproto with hp | hp <;> rw [hp] <;> decide
  have hplen : 5 ≤ r.protocol.length := by
    rcases hproto with hp | hp <;> rw [hp] <;> decide
  have hst := serTail_char_fact hpath hq hf
  have hpc := @hostport_chars r.hostname r.port hhost.2.1
  have hstne : serTail r.pathname r.search r.frag ≠ [] := serTail_ne_nil hpath
  obtain ⟨e, hlastc, hejs, hec0⟩ :
      ∃ e, (serTail r.pathname r.search r.frag).getLast? = some e ∧
        isJsWs e = false ∧ isC0Space e = false := by
    cases hgl : (serTail r.pathname r.search r.frag).getLast? with
    | none => exact absurd (List.getLast?_eq_none_iff.mp hgl) hstne
    | some e =>
      have hmem := mem_of_getLast?_eq hgl
      have hfacts := hst e hmem
      have h32 : 32 < e.toNat := by
        unfold tailLastOK at hlast
        rw [hgl] at hlast
        exact of_decide_eq_true hlast
      obtain ⟨hA, hB, hC⟩ := hfacts
      refine ⟨e, rfl, ?_, ?_⟩
      · simp only [isJsWs, Bool.or_eq_false_iff]
        refine ⟨⟨⟨⟨⟨⟨⟨?_, ?_⟩, ?_⟩, ?_⟩, ?_⟩, ?_⟩, ?_⟩, ?_⟩ <;> simp <;> omega
      · simp only [isC0Space]
        simp
        omega
  have hylast : (serializeURL r).getLast? = some e := by
    rw [hshape]
    refine getLast?_append_right _ _ _ ?_
    rw [show ('/' :: '/' :: (serUi r.userinfo ++ r.hostname ++ serPort r.port ++
        serTail r.pathname r.search r.frag)) =
      ['/', '/'] ++ (serUi r.userinfo ++ r.hostname ++ serPort r.port ++
        serTail r.pathname r.search r.frag) from rfl]
    refine getLast?_append_right _ _ _ ?_
    exact getLast?_append_right _ _ _ hlastc
  have hyhead : (serializeURL r).head? = some 'h' := by
    rw [hshape]
    rcases hproto with hp | hp <;> rw [hp] <;> rfl
  have hyne : serializeURL r ≠ [] := by
    rw [hshape]
    intro he
    have := congrArg List.length he
    simp only [List.length_append, List.length_cons, List.length_nil] at this
    omega
  have huichars : ∀ c ∈ serUi r.userinfo, isTabNl c = false := by
    cases hu : r.userinfo with
    | none => intro c hc; cases hc
    | some u =>
      intro c hc
      rcases List.mem_append.mp hc with h | h
      · rw [hu] at hui
        exact (ui_nchars (hui.2.1 c h)).2
      · rw [List.mem_singleton.mp h]; decide
  have hallchars : ∀ c ∈ serializeURL r, isTabNl c = false := by
    rw [hshape]
    intro c hc
    rcases List.mem_append.mp hc with h | h
    · exact (hprotochars c h).1
    · rcases List.mem_cons.mp h with h | h
      · rw [h]; decide
      · rcases List.mem_cons.mp h with h | h
        · rw [h]; decide
        · rcases List.mem_append.mp h with h | h
          · rcases List.mem_append.mp h with h | h
            · rcases List.mem_append.mp h with h | h
              · exact huichars c h
              · exact (hpc c (List.mem_append.mpr (Or.inl h))).1
            · exact (hpc c (List.mem_append.mpr (Or.inr h))).1
          · exact (hst c h).1
  have htrim : jsTrim (serializeURL r) = serializeURL r := by
    refine jsTrim_noop ?_ ?_
    · intro c hc
      rw [hyhead] at hc
      injection hc with hc
      rw [← hc]
      decide
    · intro c hc
      rw [hylast] at hc
      injection hc with hc
      rw [← hc]
      exact hejs
  have hclean : cleanse (serializeURL r) = serializeURL r := by
    refine cleanse_noop hallchars ?_ ?_
    · intro c hc
      rw [hyhead] at hc
      injection hc with hc
      rw [← hc]
      decide
    · intro c hc
      rw [hylast] at hc
      injection hc with hc
      rw [← hc]
      exact hec0
  have hhl : 0 < r.hostname.length := List.length_pos.mpr hhost.1
  have hstl : 0 < (serTail r.pathname r.search r.frag).length := List.length_pos.mpr hstne
  have hlen : ¬((serializeURL r).length < 4) := by
    rw [hshape]
    simp only [List.length_append, List.length_cons]
    omega
  have hbuild := parseMain_build r hwf2
  have hps : (parseScheme (serializeURL r)).isSome = true := by
    rw [hshape]
    rcases hproto with hp | hp <;> rw [hp]
    · rw [parseScheme_http]; rfl
    · rw [parseScheme_https]; rfl
  have hneq : ¬(serializeURL r = tl "http://" ∨ serializeURL r = tl "https://") := by
    intro hor
    rcases hor with he | he
    · rw [he, show parseMain (tl "http://") = none from rfl] at hbuild
      cases hbuild
    · rw [he, show parseMain (tl "https://") = none from rfl] at hbuild
      cases hbuild
  simp only [normalizeWebsite, Option.getD_some]
  rw [htrim]
  rw [if_neg (by simp only [tstr, Bool.not_not, List.isEmpty_eq_true]; exact hyne)]
  rw [if_neg hlen, if_neg hneq, if_pos hps]
  simp only [parseURL]
  rw [hclean, hbuild]
  simp only
  rw [if_neg (by
    simp only [Bool.or_eq_true, Bool.not_eq_true', List.isEmpty_eq_true]
    push_neg
    exact ⟨hhost.1, by simpa using hdot⟩)]
  rw [if_neg hnr]

theorem normWeb_tail_shape {s y : Str}
    (h : (match parseURL s with
          | none => none
          | some parsed =>
            if parsed.hostname.isEmpty || !parsed.hostname.contains '.' then none
            else if parsed.pathname = ['/'] then
              some (parsed.protocol ++ tl "//" ++ parsed.hostname ++ serPort parsed.port)
            else some (serializeURL parsed)) = some y) :
    ∃ r, URLWF r ∧ r.hostname.contains '.' = true ∧
      ((r.pathname = ['/'] ∧ y = r.protocol ++ tl "//" ++ r.hostname ++ serPort r.port) ∨
       (r.pathname ≠ ['/'] ∧ y = serializeURL r)) := by
  cases hp : parseURL s with
  | none => rw [hp] at h; cases h
  | some parsed =>
    rw [hp] at h
    simp only at h
    have hwf : URLWF parsed := parseMain_wf (by simpa [parseURL] using hp)
    split_ifs at h with hc1 hc2
    · have hdot : parsed.hostname.contains '.' = true := by
        cases hcc : parsed.hostname.contains '.' with
        | true => rfl
        | false => exact absurd (by rw [Bool.or_eq_true]; right; rw [hcc]; rfl) hc1
      injection h with h
      exact ⟨parsed, hwf, hdot, Or.inl ⟨hc2, h.symm⟩⟩
    · have hdot : parsed.hostname.contains '.' = true := by
        cases hcc : parsed.hostname.contains '.' with
        | true => rfl
        | false => exact absurd (by rw [Bool.or_eq_true]; right; rw [hcc]; rfl) hc1
      injection h with h
      exact ⟨parsed, hwf, hdot, Or.inr ⟨hc2, h.symm⟩⟩

theorem normalizeWebsite_shape {x y : Str} (h : normalizeWebsite (some x) = some y) :
    ∃ r, URLWF r ∧ r.hostname.contains '.' = true ∧
      ((r.pathname = ['/'] ∧ y = r.protocol ++ tl "//" ++ r.hostname ++ serPort r.port) ∨
       (r.pathname ≠ ['/'] ∧ y = serializeURL r)) := by
  simp only [normalizeWebsite, Option.getD_some] at h
  split_ifs at h <;>
  · simp only at h
    exact normWeb_tail_shape h

/-- C4: `normalizeWebsite` is idempotent on its non-null outputs: whenever
`normalizeWebsite` maps the string `x` to a (non-null) string `y`, applying
it again to `y` returns `y` itself.  The proof goes through a parse/serialize
round-trip: every output is either the full `href` of a well-formed parsed
URL or its bare-path shortening, and both forms re-parse to the same record
and re-serialize to themselves. -/
theorem normalizeWebsite_idem (x y : Str) (h : normalizeWebsite (some x) = some y) :
    normalizeWebsite (some y) = some y := by
  obtain ⟨r, hwf, hdot, hbr⟩ := normalizeWebsite_shape h
  rcases hbr with ⟨hp, hy⟩ | ⟨hp, hy⟩
  · rw [hy]
    exact normWeb_reparse_bare r.protocol r.hostname r.port hwf.1 hwf.2.2.1 hwf.2.2.2.1 hdot
  · rw [hy]
    exact normWeb_reparse_full r hwf hdot hp

/-- Witness for C4 at a concrete input: `"a.b/c"` normalizes to
`"https://a.b/c"`, and the theorem yields that the latter is a fixpoint. -/
theorem normalizeWebsite_idem_witness :
    normalizeWebsite (some (tl "a.b/c")) = some (tl "https://a.b/c") ∧
    normalizeWebsite (some (tl "https://a.b/c")) = some (tl "https://a.b/c") :=
  ⟨by decide, normalizeWebsite_idem (tl "a.b/c") (tl "https://a.b/c") (by decide)⟩
